import Mathlib

/-!
# Verification of the echo-orchestrator agent runtime

Shallow embedding, in Lean 4, of the core data model and operations of the
`echo-orchestrator` Python repository:

* the coordination hub (`src/agents/actions/orchestrator_hub.py`),
* the todo / scratchpad state managers (`src/agents/actions/state_managers.py`),
* the action model and its per-variant validation (`src/agents/actions/entities/actions.py`),
* the response parser (`src/agents/actions/parsing/parser.py`),
* the action handler (`src/agents/actions/parsing/action_handler.py`),
* the turn executor (`src/agents/env_interaction/turn_executor.py`),
* the subagent driver (`src/agents/subagent.py`),
* the LLM client wrapper (`src/agents/utils/llm_client.py`).

Python dictionaries are modelled as insertion-ordered association lists,
machine-level I/O (the LLM transport, the command executor, the filesystem,
the random generator, wall-clock time) as explicit oracle parameters, and
Python exceptions as `Except` results.
-/

namespace EchoOrch

/-! ## Association lists: the model of Python `dict`

`alookup` is `d.get(k)`, `aset` is `d[k] = v` (replaces the value in place when
the key is present, otherwise appends, preserving insertion order). -/

def alookup {α : Type} : List (String × α) → String → Option α
  | [], _ => none
  | (k', v) :: rest, k => if k' = k then some v else alookup rest k

def aset {α : Type} : List (String × α) → String → α → List (String × α)
  | [], k, v => [(k, v)]
  | (k', v') :: rest, k, v =>
      if k' = k then (k', v) :: rest else (k', v') :: aset rest k v

theorem alookup_aset_self {α : Type} (l : List (String × α)) (k : String) (v : α) :
    alookup (aset l k v) k = some v := by
  induction l with
  | nil => simp [aset, alookup]
  | cons hd tl ih =>
      obtain ⟨k', v'⟩ := hd
      by_cases h : k' = k <;> simp [aset, alookup, h, ih]

theorem alookup_aset_ne {α : Type} (l : List (String × α)) (k k' : String) (v : α)
    (h : k ≠ k') : alookup (aset l k v) k' = alookup l k' := by
  induction l with
  | nil => simp [aset, alookup, h]
  | cons hd tl ih =>
      obtain ⟨k₀, v₀⟩ := hd
      by_cases h₀ : k₀ = k
      · subst h₀
        simp [aset, alookup, h]
      · simp only [aset, if_neg h₀, alookup]
        by_cases h₁ : k₀ = k' <;> simp [h₁, ih]

theorem alookup_isSome_aset {α : Type} (l : List (String × α)) (k k' : String) (v : α)
    (h : (alookup l k').isSome) : (alookup (aset l k v) k').isSome := by
  by_cases hk : k = k'
  · subst hk; simp [alookup_aset_self]
  · rwa [alookup_aset_ne _ _ _ _ hk]

/-! ## Python decimal rendering

`f"task_{n:03d}"` renders `n` in decimal, left-padded with zeros to at least
three digits.  We prove a parse round-trip, from which the freshness of newly
generated task ids follows. -/

def digitChar (d : Nat) : Char := Char.ofNat (48 + d)

/-- Decimal digit characters of `n`, most significant first (fuel-indexed so
that the kernel can evaluate it; `toDigits` supplies sufficient fuel). -/
def toDigitsAux : Nat → Nat → List Char
  | 0, _ => []
  | fuel + 1, n =>
      if n < 10 then [digitChar n]
      else toDigitsAux fuel (n / 10) ++ [digitChar (n % 10)]

def toDigits (n : Nat) : List Char := toDigitsAux (n + 1) n

def pad3 (s : List Char) : List Char := List.replicate (3 - s.length) '0' ++ s

def taskIdOf (n : Nat) : String := ⟨'t' :: 'a' :: 's' :: 'k' :: '_' :: pad3 (toDigits n)⟩

def parseDigitsFrom (a : Nat) (l : List Char) : Nat :=
  l.foldl (fun acc c => 10 * acc + (c.toNat - 48)) a

theorem digitChar_toNat {d : Nat} (h : d < 10) : (digitChar d).toNat = 48 + d := by
  interval_cases d <;> rfl

theorem parseDigitsFrom_toDigitsAux (fuel : Nat) :
    ∀ n a : Nat, n < fuel →
      parseDigitsFrom a (toDigitsAux fuel n) = a * 10 ^ (toDigitsAux fuel n).length + n := by
  induction fuel with
  | zero => intro n a h; omega
  | succ fuel ih =>
      intro n a h
      by_cases h10 : n < 10
      · rw [toDigitsAux, if_pos h10]
        simp [parseDigitsFrom, digitChar_toNat h10]
        omega
      · rw [toDigitsAux, if_neg h10]
        have hdiv : n / 10 < fuel := by
          have : n / 10 < n := Nat.div_lt_self (by omega) (by omega)
          omega
        have ihd := ih (n / 10) a hdiv
        simp only [parseDigitsFrom, List.foldl_append, List.foldl_cons, List.foldl_nil,
          List.length_append, List.length_cons, List.length_nil]
        rw [show List.foldl (fun acc c => 10 * acc + (c.toNat - 48)) a
              (toDigitsAux fuel (n / 10))
              = parseDigitsFrom a (toDigitsAux fuel (n / 10)) from rfl, ihd]
        have hm : (digitChar (n % 10)).toNat = 48 + n % 10 :=
          digitChar_toNat (Nat.mod_lt _ (by omega))
        rw [hm]
        have : 10 * (n / 10) + n % 10 = n := Nat.div_add_mod n 10
        ring_nf
        omega

theorem parseDigitsFrom_toDigits (n : Nat) :
    ∀ a : Nat, parseDigitsFrom a (toDigits n) = a * 10 ^ (toDigits n).length + n :=
  fun a => parseDigitsFrom_toDigitsAux (n + 1) n a (Nat.lt_succ_self n)

theorem parseDigitsFrom_replicate_zero (k : Nat) :
    parseDigitsFrom 0 (List.replicate k '0') = 0 := by
  induction k with
  | zero => rfl
  | succ k ih =>
      simp only [List.replicate_succ, parseDigitsFrom, List.foldl_cons]
      exact ih

theorem parseDigitsFrom_pad3_toDigits (n : Nat) :
    parseDigitsFrom 0 (pad3 (toDigits n)) = n := by
  unfold pad3
  rw [show parseDigitsFrom 0 (List.replicate (3 - (toDigits n).length) '0' ++ toDigits n)
        = parseDigitsFrom (parseDigitsFrom 0 (List.replicate (3 - (toDigits n).length) '0'))
            (toDigits n) from List.foldl_append ..]
  rw [parseDigitsFrom_replicate_zero]
  rw [parseDigitsFrom_toDigits n 0]
  simp

theorem taskIdOf_injective : Function.Injective taskIdOf := by
  intro m n h
  have hdata : 't' :: 'a' :: 's' :: 'k' :: '_' :: pad3 (toDigits m)
      = 't' :: 'a' :: 's' :: 'k' :: '_' :: pad3 (toDigits n) := congrArg String.data h
  have hpad : pad3 (toDigits m) = pad3 (toDigits n) := by
    simpa using hdata
  have := congrArg (parseDigitsFrom 0) hpad
  rwa [parseDigitsFrom_pad3_toDigits, parseDigitsFrom_pad3_toDigits] at this

/-! ## Entities (`entities/task.py`, `entities/context.py`, `entities/subagent_report.py`)

Timestamps (`datetime.now().isoformat()`) are wall-clock I/O; every mutating hub
operation therefore takes the current timestamp as an explicit `now` argument. -/

inductive TaskStatus where
  | created
  | completed
  | failed
  deriving DecidableEq, Repr

structure ContextBootstrapItem where
  path : String
  reason : String
  deriving DecidableEq, Repr

/-- The `result` dict produced by `OrchestratorHub.process_subagent_result`:
`{'task_id': …, 'context_ids_stored': …, 'comments': …}`. -/
structure HubResult where
  task_id : String
  context_ids_stored : List String
  comments : String
  deriving DecidableEq, Repr

structure Task where
  task_id : String
  agent_type : String
  title : String
  description : String
  context_refs : List String
  context_bootstrap : List ContextBootstrapItem
  status : TaskStatus
  created_at : String
  completed_at : Option String
  result : Option HubResult
  deriving DecidableEq, Repr

structure Context where
  id : String
  content : String
  reported_by : String
  task_id : Option String
  created_at : String
  deriving DecidableEq, Repr

/-- One role-tagged chat message of an agent's message list (plain-string content). -/
structure Msg where
  role : String
  content : String
  deriving DecidableEq, Repr

structure ContextItem where
  id : String
  content : String
  deriving DecidableEq, Repr

structure SubagentMeta where
  trajectory : Option (List Msg)
  num_turns : Option Nat
  total_input_tokens : Nat
  total_output_tokens : Nat
  deriving DecidableEq, Repr

structure SubagentReport where
  contexts : List ContextItem
  comments : String
  meta : Option SubagentMeta
  deriving DecidableEq, Repr

/-! ## The coordination hub (`orchestrator_hub.py`) -/

structure HubState where
  tasks : List (String × Task)
  context_store : List (String × Context)
  task_counter : Nat
  deriving DecidableEq, Repr

/-- The freshly constructed `OrchestratorHub()`. -/
def hub0 : HubState := ⟨[], [], 0⟩

namespace OrchestratorHub

/-- `OrchestratorHub.create_task` (orchestrator_hub.py:25-54). -/
def create_task (s : HubState) (agent_type title description : String)
    (context_refs : List String) (context_bootstrap : List ContextBootstrapItem)
    (now : String) : String × HubState :=
  let counter := s.task_counter + 1
  let task_id := taskIdOf counter
  let task : Task :=
    ⟨task_id, agent_type, title, description, context_refs, context_bootstrap,
      .created, now, none, none⟩
  (task_id, ⟨aset s.tasks task_id task, s.context_store, counter⟩)

/-- `OrchestratorHub.get_task` (orchestrator_hub.py:56-57). -/
def get_task (s : HubState) (task_id : String) : Option Task :=
  alookup s.tasks task_id

/-- `OrchestratorHub.update_task_status` (orchestrator_hub.py:59-75). -/
def update_task_status (s : HubState) (task_id : String) (status : TaskStatus)
    (now : String) : Bool × HubState :=
  match alookup s.tasks task_id with
  | none => (false, s)
  | some task =>
      let task' : Task :=
        { task with
            status := status
            completed_at := if status = .completed then some now else task.completed_at }
      (true, { s with tasks := aset s.tasks task_id task' })

/-- `OrchestratorHub.add_context` (orchestrator_hub.py:107-127). -/
def add_context (s : HubState) (context_id content reported_by : String)
    (task_id : Option String) (now : String) : Bool × HubState :=
  if (alookup s.context_store context_id).isSome then (false, s)
  else
    (true,
      { s with
          context_store :=
            aset s.context_store context_id
              ⟨context_id, content, reported_by, task_id, now⟩ })

/-- `OrchestratorHub.get_contexts_for_task` (orchestrator_hub.py:129-143):
missing refs are silently omitted (and logged). -/
def get_contexts_for_task (s : HubState) (context_refs : List String) :
    List (String × String) :=
  context_refs.foldl
    (fun acc ref =>
      match alookup s.context_store ref with
      | some ctx => aset acc ref ctx.content
      | none => acc)
    []

/-- The `for ctx in report.contexts` loop of `process_subagent_result`
(orchestrator_hub.py:179-193): items with falsy (empty) `id` or `content` are
skipped, the rest are offered to `add_context`; ids of successful inserts are
collected in order. -/
def store_report_contexts (s : HubState) (task_id : String) :
    List ContextItem → (now : String) → List String × HubState
  | [], _ => ([], s)
  | ctx :: rest, now =>
      if ctx.id ≠ "" ∧ ctx.content ≠ "" then
        let r := add_context s ctx.id ctx.content task_id (some task_id) now
        let rr := store_report_contexts r.2 task_id rest now
        (if r.1 then ctx.id :: rr.1 else rr.1, rr.2)
      else
        store_report_contexts s task_id rest now

/-- `OrchestratorHub.process_subagent_result` (orchestrator_hub.py:162-210). -/
def process_subagent_result (s : HubState) (task_id : String)
    (report : SubagentReport) (now : String) : HubResult × HubState :=
  let sr := store_report_contexts s task_id report.contexts now
  let s₁ := sr.2
  let result : HubResult := ⟨task_id, sr.1, report.comments⟩
  match alookup s₁.tasks task_id with
  | none => (result, s₁)
  | some task =>
      let s₂ := { s₁ with tasks := aset s₁.tasks task_id { task with result := some result } }
      (result, (update_task_status s₂ task_id .completed now).2)

end OrchestratorHub

/-! ## Hub operation traces

`update_task_status` is invoked by no caller in the repository other than
`process_subagent_result` itself, so the sequences of hub operations reachable
from the rest of the program are built from `create_task`, `add_context` and
`process_subagent_result`. -/

inductive HubOp where
  | create (agent_type title description : String) (refs : List String)
      (bootstrap : List ContextBootstrapItem) (now : String)
  | addCtx (id content reported_by : String) (task_id : Option String) (now : String)
  | processResult (task_id : String) (report : SubagentReport) (now : String)
  deriving DecidableEq, Repr

def applyOp (s : HubState) : HubOp → HubState
  | .create agent_type title description refs bootstrap now =>
      (OrchestratorHub.create_task s agent_type title description refs bootstrap now).2
  | .addCtx id content reported_by task_id now =>
      (OrchestratorHub.add_context s id content reported_by task_id now).2
  | .processResult task_id report now =>
      (OrchestratorHub.process_subagent_result s task_id report now).2

def runOps (s : HubState) : List HubOp → HubState
  | [] => s
  | op :: rest => runOps (applyOp s op) rest

/-- `process_subagent_result` has been invoked for `id` somewhere in `ops`
(regardless of whether a task with that id existed at that moment). -/
def invokedFor (ops : List HubOp) (id : String) : Bool :=
  ops.any fun op =>
    match op with
    | .processResult tid _ _ => tid = id
    | _ => false

/-- `process_subagent_result` has been invoked for `id` at a moment at which a
task with that id was registered in the hub. -/
def invokedWhileRegistered (s : HubState) : List HubOp → String → Bool
  | [], _ => false
  | op :: rest, id =>
      (match op with
       | .processResult tid _ _ => tid = id && (alookup s.tasks id).isSome
       | _ => false)
      || invokedWhileRegistered (applyOp s op) rest id

/-! ## State managers (`state_managers.py`)

`TodoManager.add_task` is called with `op.content`, which can be Python `None`
(the pydantic validator for `content` does not run when the field is absent),
so stored contents are modelled as `Option String`. -/

structure TodoItem where
  content : Option String
  status : String
  deriving DecidableEq, Repr

structure TodoState where
  todos : List (Int × TodoItem)
  next_id : Int
  deriving DecidableEq, Repr

def todo0 : TodoState := ⟨[], 1⟩

def ilookup {α : Type} : List (Int × α) → Int → Option α
  | [], _ => none
  | (k', v) :: rest, k => if k' = k then some v else ilookup rest k

def iset {α : Type} : List (Int × α) → Int → α → List (Int × α)
  | [], k, v => [(k, v)]
  | (k', v') :: rest, k, v =>
      if k' = k then (k', v) :: rest else (k', v') :: iset rest k v

def iremove {α : Type} : List (Int × α) → Int → List (Int × α)
  | [], _ => []
  | (k', v') :: rest, k => if k' = k then rest else (k', v') :: iremove rest k

namespace TodoManager

/-- `TodoManager.add_task` (state_managers.py:13-18). -/
def add_task (t : TodoState) (content : Option String) : Int × TodoState :=
  (t.next_id, ⟨iset t.todos t.next_id ⟨content, "pending"⟩, t.next_id + 1⟩)

/-- `TodoManager.complete_task` (state_managers.py:20-25). -/
def complete_task (t : TodoState) (task_id : Int) : Bool × TodoState :=
  match ilookup t.todos task_id with
  | some item => (true, { t with todos := iset t.todos task_id { item with status := "completed" } })
  | none => (false, t)

/-- `TodoManager.delete_task` (state_managers.py:27-32). -/
def delete_task (t : TodoState) (task_id : Int) : Bool × TodoState :=
  match ilookup t.todos task_id with
  | some _ => (true, { t with todos := iremove t.todos task_id })
  | none => (false, t)

/-- `TodoManager.get_task` (state_managers.py:34-36). -/
def get_task (t : TodoState) (task_id : Int) : Option TodoItem :=
  ilookup t.todos task_id

/-- Python `f"{x}"` for `Optional[str]` content. -/
def showContent : Option String → String
  | some s => s
  | none => "None"

/-- Insertion into a key-sorted association list (stable). -/
def insertSorted (x : Int × TodoItem) : List (Int × TodoItem) → List (Int × TodoItem)
  | [] => [x]
  | y :: rest => if y.1 ≤ x.1 then y :: insertSorted x rest else x :: y :: rest

/-- Python `sorted(d.items())` on integer keys (keys are unique, so any stable
sort yields this). -/
def sortItems : List (Int × TodoItem) → List (Int × TodoItem)
  | [] => []
  | x :: rest => insertSorted x (sortItems rest)

/-- `TodoManager.view_all` (state_managers.py:38-48); `sorted(self.todos.items())`
sorts by the integer key. -/
def view_all (t : TodoState) : String :=
  if t.todos = [] then "Todo list is empty."
  else
    let sorted := sortItems t.todos
    let lines := sorted.map fun (task_id, item) =>
      (if item.status = "completed" then "[✓] [" else "[ ] [")
        ++ toString task_id ++ "] " ++ showContent item.content
    String.intercalate "\n" ("Todo List:" :: lines)

end TodoManager

/-- `ScratchpadManager` (state_managers.py:56-80): `add_note` appends and returns
the index; `view_all` renders all notes. -/
def ScratchpadManager.view_all (notes : List String) : String :=
  if notes = [] then "Scratchpad is empty."
  else
    String.intercalate "\n"
      ("Scratchpad Contents:" ::
        (notes.enum.map fun (i, note) =>
          "\n--- Note " ++ toString (i + 1) ++ " ---\n" ++ note))

/-! ## YAML values

`yaml.safe_load` is an external library; its output is modelled by the `Yaml`
type (mapping keys restricted to strings, the only shape the action schemas
accept). -/

inductive Yaml where
  | str (s : String)
  | int (n : Int)
  | bool (b : Bool)
  | null
  | arr (xs : List Yaml)
  | map (kvs : List (String × Yaml))
  deriving Repr

mutual

def Yaml.beq : Yaml → Yaml → Bool
  | .str a, .str b => a == b
  | .int a, .int b => a == b
  | .bool a, .bool b => a == b
  | .null, .null => true
  | .arr a, .arr b => Yaml.beqList a b
  | .map a, .map b => Yaml.beqKvs a b
  | _, _ => false

def Yaml.beqList : List Yaml → List Yaml → Bool
  | [], [] => true
  | a :: as, b :: bs => Yaml.beq a b && Yaml.beqList as bs
  | _, _ => false

def Yaml.beqKvs : List (String × Yaml) → List (String × Yaml) → Bool
  | [], [] => true
  | (ka, va) :: as, (kb, vb) :: bs => ka == kb && Yaml.beq va vb && Yaml.beqKvs as bs
  | _, _ => false

end

mutual

theorem Yaml.beq_iff : ∀ a b : Yaml, Yaml.beq a b = true ↔ a = b
  | .str a, .str b => by simp [Yaml.beq]
  | .str _, .int _ | .str _, .bool _ | .str _, .null | .str _, .arr _ | .str _, .map _ => by
      simp [Yaml.beq]
  | .int _, .str _ => by simp [Yaml.beq]
  | .int a, .int b => by simp [Yaml.beq]
  | .int _, .bool _ | .int _, .null | .int _, .arr _ | .int _, .map _ => by simp [Yaml.beq]
  | .bool _, .str _ | .bool _, .int _ => by simp [Yaml.beq]
  | .bool a, .bool b => by simp [Yaml.beq]
  | .bool _, .null | .bool _, .arr _ | .bool _, .map _ => by simp [Yaml.beq]
  | .null, .str _ | .null, .int _ | .null, .bool _ => by simp [Yaml.beq]
  | .null, .null => by simp [Yaml.beq]
  | .null, .arr _ | .null, .map _ => by simp [Yaml.beq]
  | .arr _, .str _ | .arr _, .int _ | .arr _, .bool _ | .arr _, .null => by simp [Yaml.beq]
  | .arr a, .arr b => by
      simpa [Yaml.beq] using Yaml.beqList_iff a b
  | .arr _, .map _ => by simp [Yaml.beq]
  | .map _, .str _ | .map _, .int _ | .map _, .bool _ | .map _, .null | .map _, .arr _ => by
      simp [Yaml.beq]
  | .map a, .map b => by
      simpa [Yaml.beq] using Yaml.beqKvs_iff a b

theorem Yaml.beqList_iff : ∀ a b : List Yaml, Yaml.beqList a b = true ↔ a = b
  | [], [] => by simp [Yaml.beqList]
  | [], _ :: _ => by simp [Yaml.beqList]
  | _ :: _, [] => by simp [Yaml.beqList]
  | a :: as, b :: bs => by
      simp [Yaml.beqList, Bool.and_eq_true, Yaml.beq_iff a b, Yaml.beqList_iff as bs]

theorem Yaml.beqKvs_iff : ∀ a b : List (String × Yaml), Yaml.beqKvs a b = true ↔ a = b
  | [], [] => by simp [Yaml.beqKvs]
  | [], _ :: _ => by simp [Yaml.beqKvs]
  | _ :: _, [] => by simp [Yaml.beqKvs]
  | (ka, va) :: as, (kb, vb) :: bs => by
      simp [Yaml.beqKvs, Bool.and_eq_true, Yaml.beq_iff va vb, Yaml.beqKvs_iff as bs,
        Prod.ext_iff, and_assoc]

end

instance : DecidableEq Yaml := fun a b =>
  decidable_of_iff (Yaml.beq a b = true) (Yaml.beq_iff a b)

/-! ## The action model (`entities/actions.py`)

One closed sum type; field names and per-variant validation rules follow the
pydantic models.  `context_bootstrap` and `contexts` carry raw YAML dicts, as
the pydantic models declare them (`List[dict]`). -/

structure TodoOperation where
  action : String
  content : Option String
  task_id : Option Int
  deriving DecidableEq, Repr

structure EditOperation where
  old_string : String
  new_string : String
  replace_all : Bool
  deriving DecidableEq, Repr

inductive Action where
  | bash (cmd : String) (block : Bool) (timeout_secs : Int)
  | finish (message : String)
  | batchTodo (operations : List TodoOperation) (view_all : Bool)
  | read (file_path : String) (offset : Option Int) (limit : Option Int)
  | write (file_path : String) (content : String)
  | edit (file_path old_string new_string : String) (replace_all : Bool)
  | multiEdit (file_path : String) (edits : List EditOperation)
  | fileMetadata (file_paths : List String)
  | grep (pattern : String) (path : Option String) (includeGlob : Option String)
  | glob (pattern : String) (path : Option String)
  | ls (path : String) (ignore : List String)
  | addNote (content : String)
  | viewAllNotes
  | taskCreate (agent_type title description : String) (context_refs : List String)
      (context_bootstrap : List (List (String × Yaml))) (auto_launch : Bool)
  | addContext (id content reported_by : String) (task_id : Option String)
  | launchSubagent (task_id : String)
  | report (contexts : List (List (String × Yaml))) (comments : String)
  | writeTempScript (file_path : String) (content : String)
  deriving DecidableEq, Repr

/-! ### Field decoding helpers (pydantic v2, lax mode)

A field that is absent takes its default without running field validators; a
field given as YAML `null` counts as an explicit `None`. -/

def vCheckKeys (kvs : List (String × Yaml)) (allowed : List String) : Except String Unit :=
  if kvs.all (fun kv => allowed.contains kv.1) then .ok ()
  else .error "extra fields not permitted"

def vRequiredStr (kvs : List (String × Yaml)) (key : String) : Except String String :=
  match alookup kvs key with
  | some (.str s) => .ok s
  | some _ => .error (key ++ ": input should be a valid string")
  | none => .error (key ++ ": field required")

def vRequiredStrMin1 (kvs : List (String × Yaml)) (key : String) : Except String String := do
  let s ← vRequiredStr kvs key
  if s = "" then .error (key ++ ": should have at least 1 character") else .ok s

def vStrDefault (kvs : List (String × Yaml)) (key dflt : String) : Except String String :=
  match alookup kvs key with
  | none => .ok dflt
  | some (.str s) => .ok s
  | some _ => .error (key ++ ": input should be a valid string")

def vOptStr (kvs : List (String × Yaml)) (key : String) : Except String (Option String) :=
  match alookup kvs key with
  | none => .ok none
  | some .null => .ok none
  | some (.str s) => .ok (some s)
  | some _ => .error (key ++ ": input should be a valid string")

/-- `Optional[str]` whose presence is tracked: `none` when the key is absent
(field validators are skipped for absent fields). -/
def vOptStrPresence (kvs : List (String × Yaml)) (key : String) :
    Except String (Option (Option String)) :=
  match alookup kvs key with
  | none => .ok none
  | some .null => .ok (some none)
  | some (.str s) => .ok (some (some s))
  | some _ => .error (key ++ ": input should be a valid string")

def vOptIntPresence (kvs : List (String × Yaml)) (key : String) :
    Except String (Option (Option Int)) :=
  match alookup kvs key with
  | none => .ok none
  | some .null => .ok (some none)
  | some (.int n) => .ok (some (some n))
  | some _ => .error (key ++ ": input should be a valid integer")

def vOptInt (kvs : List (String × Yaml)) (key : String) : Except String (Option Int) := do
  match ← vOptIntPresence kvs key with
  | none => .ok none
  | some v => .ok v

def vBoolDefault (kvs : List (String × Yaml)) (key : String) (dflt : Bool) :
    Except String Bool :=
  match alookup kvs key with
  | none => .ok dflt
  | some (.bool b) => .ok b
  | some _ => .error (key ++ ": input should be a valid boolean")

def vIntDefault (kvs : List (String × Yaml)) (key : String) (dflt : Int) :
    Except String Int :=
  match alookup kvs key with
  | none => .ok dflt
  | some (.int n) => .ok n
  | some _ => .error (key ++ ": input should be a valid integer")

def vListStrDefault (kvs : List (String × Yaml)) (key : String) :
    Except String (List String) :=
  match alookup kvs key with
  | none => .ok []
  | some (.arr xs) =>
      xs.foldrM
        (fun x acc =>
          match x with
          | .str s => .ok (s :: acc)
          | _ => .error (key ++ ": input should be a valid string"))
        []
  | some _ => .error (key ++ ": input should be a valid list")

def vRequiredListStr (kvs : List (String × Yaml)) (key : String) :
    Except String (List String) :=
  match alookup kvs key with
  | some (.arr xs) =>
      xs.foldrM
        (fun x acc =>
          match x with
          | .str s => .ok (s :: acc)
          | _ => .error (key ++ ": input should be a valid string"))
        []
  | some _ => .error (key ++ ": input should be a valid list")
  | none => .error (key ++ ": field required")

def vListDictDefault (kvs : List (String × Yaml)) (key : String) :
    Except String (List (List (String × Yaml))) :=
  match alookup kvs key with
  | none => .ok []
  | some (.arr xs) =>
      xs.foldrM
        (fun x acc =>
          match x with
          | .map m => .ok (m :: acc)
          | _ => .error (key ++ ": input should be a valid dictionary"))
        []
  | some _ => .error (key ++ ": input should be a valid list")

def vRequiredListYaml (kvs : List (String × Yaml)) (key : String) :
    Except String (List Yaml) :=
  match alookup kvs key with
  | some (.arr xs) => .ok xs
  | some _ => .error (key ++ ": input should be a valid list")
  | none => .error (key ++ ": field required")

/-- Every `model_validate` entry point first requires the payload to be a
mapping. -/
def vDict (data : Yaml) : Except String (List (String × Yaml)) :=
  match data with
  | .map kvs => .ok kvs
  | _ => .error "input should be a valid dictionary"

/-! ### Per-variant validation (`model_validate`, with `extra = "forbid"` for
`Action` subclasses; plain `BaseModel` submodels ignore extra fields). -/

def BashAction.model_validate (data : Yaml) : Except String Action := do
  let kvs ← vDict data
  vCheckKeys kvs ["cmd", "block", "timeout_secs"]
  let cmd ← vRequiredStrMin1 kvs "cmd"
  let block ← vBoolDefault kvs "block" true
  let timeout_secs ← vIntDefault kvs "timeout_secs" 30
  if timeout_secs ≤ 0 then .error "timeout_secs: input should be greater than 0"
  else if timeout_secs > 300 then .error "timeout_secs: input should be less than or equal to 300"
  else .ok (.bash cmd block timeout_secs)

def FinishAction.model_validate (data : Yaml) : Except String Action := do
  let kvs ← vDict data
  vCheckKeys kvs ["message"]
  let message ← vStrDefault kvs "message" "Task completed"
  .ok (.finish message)

/-- `TodoOperation` (actions.py:28-48).  The `content` / `task_id` field
validators run only when the field is present in the payload. -/
def TodoOperation.model_validate (data : Yaml) : Except String TodoOperation := do
  let kvs ← vDict data
  let action ← vRequiredStr kvs "action"
  if !(["add", "complete", "delete", "view_all"].contains action) then
    .error "action: input should be add, complete, delete or view_all"
  else do
    let contentP ← vOptStrPresence kvs "content"
    match contentP with
    | some v =>
        if action = "add" ∧ (v = none ∨ v = some "") then
          .error "content: Value error, add action requires content"
        else pure ()
    | none => pure ()
    let taskIdP ← vOptIntPresence kvs "task_id"
    match taskIdP with
    | some v =>
        if (action = "complete" ∨ action = "delete") ∧ (v = none ∨ ∃ n, v = some n ∧ n < 1) then
          .error "task_id: Value error, action requires positive task_id"
        else pure ()
    | none => pure ()
    .ok ⟨action, contentP.getD none, taskIdP.getD none⟩

def BatchTodoAction.model_validate (data : Yaml) : Except String Action := do
  let kvs ← vDict data
  vCheckKeys kvs ["operations", "view_all"]
  let rawOps ← vRequiredListYaml kvs "operations"
  let operations ← rawOps.mapM TodoOperation.model_validate
  if operations.length < 1 then .error "operations: should have at least 1 item"
  else do
    let view_all ← vBoolDefault kvs "view_all" false
    .ok (.batchTodo operations view_all)

def ReadAction.model_validate (data : Yaml) : Except String Action := do
  let kvs ← vDict data
  vCheckKeys kvs ["file_path", "offset", "limit"]
  let file_path ← vRequiredStrMin1 kvs "file_path"
  let offset ← vOptInt kvs "offset"
  match offset with
  | some n => if n < 0 then .error "offset: input should be greater than or equal to 0" else pure ()
  | none => pure ()
  let limit ← vOptInt kvs "limit"
  match limit with
  | some n => if n ≤ 0 then .error "limit: input should be greater than 0" else pure ()
  | none => pure ()
  .ok (.read file_path offset limit)

def WriteAction.model_validate (data : Yaml) : Except String Action := do
  let kvs ← vDict data
  vCheckKeys kvs ["file_path", "content"]
  let file_path ← vRequiredStrMin1 kvs "file_path"
  let content ← vRequiredStr kvs "content"
  .ok (.write file_path content)

def EditAction.model_validate (data : Yaml) : Except String Action := do
  let kvs ← vDict data
  vCheckKeys kvs ["file_path", "old_string", "new_string", "replace_all"]
  let file_path ← vRequiredStrMin1 kvs "file_path"
  let old_string ← vRequiredStr kvs "old_string"
  let new_string ← vRequiredStr kvs "new_string"
  let replace_all ← vBoolDefault kvs "replace_all" false
  .ok (.edit file_path old_string new_string replace_all)

def EditOperation.model_validate (data : Yaml) : Except String EditOperation := do
  let kvs ← vDict data
  let old_string ← vRequiredStr kvs "old_string"
  let new_string ← vRequiredStr kvs "new_string"
  let replace_all ← vBoolDefault kvs "replace_all" false
  .ok ⟨old_string, new_string, replace_all⟩

def MultiEditAction.model_validate (data : Yaml) : Except String Action := do
  let kvs ← vDict data
  vCheckKeys kvs ["file_path", "edits"]
  let file_path ← vRequiredStrMin1 kvs "file_path"
  let rawEdits ← vRequiredListYaml kvs "edits"
  let edits ← rawEdits.mapM EditOperation.model_validate
  if edits.length < 1 then .error "edits: should have at least 1 item"
  else .ok (.multiEdit file_path edits)

def FileMetadataAction.model_validate (data : Yaml) : Except String Action := do
  let kvs ← vDict data
  vCheckKeys kvs ["file_paths"]
  let file_paths ← vRequiredListStr kvs "file_paths"
  if file_paths.length < 1 then .error "file_paths: should have at least 1 item"
  else if file_paths.length > 10 then .error "file_paths: should have at most 10 items"
  else .ok (.fileMetadata file_paths)

def GrepAction.model_validate (data : Yaml) : Except String Action := do
  let kvs ← vDict data
  vCheckKeys kvs ["pattern", "path", "include"]
  let pattern ← vRequiredStrMin1 kvs "pattern"
  let path ← vOptStr kvs "path"
  let includeGlob ← vOptStr kvs "include"
  .ok (.grep pattern path includeGlob)

def GlobAction.model_validate (data : Yaml) : Except String Action := do
  let kvs ← vDict data
  vCheckKeys kvs ["pattern", "path"]
  let pattern ← vRequiredStrMin1 kvs "pattern"
  let path ← vOptStr kvs "path"
  .ok (.glob pattern path)

def LSAction.model_validate (data : Yaml) : Except String Action := do
  let kvs ← vDict data
  vCheckKeys kvs ["path", "ignore"]
  let path ← vRequiredStrMin1 kvs "path"
  let ignore ← vListStrDefault kvs "ignore"
  .ok (.ls path ignore)

def AddNoteAction.model_validate (data : Yaml) : Except String Action := do
  let kvs ← vDict data
  vCheckKeys kvs ["content"]
  let content ← vRequiredStrMin1 kvs "content"
  .ok (.addNote content)

def ViewAllNotesAction.model_validate (data : Yaml) : Except String Action := do
  let kvs ← vDict data
  vCheckKeys kvs []
  .ok .viewAllNotes

/-- `TaskCreateAction` (actions.py:129-146).  Note the literal is
`Literal["exploratory", "coder"]`. -/
def TaskCreateAction.model_validate (data : Yaml) : Except String Action := do
  let kvs ← vDict data
  vCheckKeys kvs
    ["agent_type", "title", "description", "context_refs", "context_bootstrap", "auto_launch"]
  let agent_type ← vRequiredStr kvs "agent_type"
  if !(["exploratory", "coder"].contains agent_type) then
    .error "agent_type: input should be exploratory or coder"
  else do
    let title ← vRequiredStrMin1 kvs "title"
    let description ← vRequiredStrMin1 kvs "description"
    let context_refs ← vListStrDefault kvs "context_refs"
    let context_bootstrap ← vListDictDefault kvs "context_bootstrap"
    let _ ← context_bootstrap.mapM fun item =>
      if (alookup item "path").isNone ∨ (alookup item "reason").isNone then
        (.error "context_bootstrap: Value error, needs path and reason" :
          Except String Unit)
      else .ok ()
    let auto_launch ← vBoolDefault kvs "auto_launch" false
    .ok (.taskCreate agent_type title description context_refs context_bootstrap auto_launch)

def AddContextAction.model_validate (data : Yaml) : Except String Action := do
  let kvs ← vDict data
  vCheckKeys kvs ["id", "content", "reported_by", "task_id"]
  let id ← vRequiredStrMin1 kvs "id"
  let content ← vRequiredStrMin1 kvs "content"
  let reported_by ← vStrDefault kvs "reported_by" "?"
  let task_id ← vOptStr kvs "task_id"
  .ok (.addContext id content reported_by task_id)

def LaunchSubagentAction.model_validate (data : Yaml) : Except String Action := do
  let kvs ← vDict data
  vCheckKeys kvs ["task_id"]
  let task_id ← vRequiredStrMin1 kvs "task_id"
  .ok (.launchSubagent task_id)

def ReportAction.model_validate (data : Yaml) : Except String Action := do
  let kvs ← vDict data
  vCheckKeys kvs ["contexts", "comments"]
  let contexts ← vListDictDefault kvs "contexts"
  let comments ← vStrDefault kvs "comments" ""
  .ok (.report contexts comments)

def WriteTempScriptAction.model_validate (data : Yaml) : Except String Action := do
  let kvs ← vDict data
  vCheckKeys kvs ["file_path", "content"]
  let file_path ← vRequiredStrMin1 kvs "file_path"
  let content ← vRequiredStr kvs "content"
  .ok (.writeTempScript file_path content)

/-! ## The response parser (`parsing/parser.py`) -/

/-- ASCII whitespace as matched by Python's `str.strip()` and `\s`. -/
def isPySpace (c : Char) : Bool :=
  c = ' ' || c = '\t' || c = '\n' || c = '\r' || c = '\x0b' || c = '\x0c'

/-- Python `str.strip()`. -/
def pyStrip (s : String) : String :=
  ⟨((s.data.dropWhile isPySpace).reverse.dropWhile isPySpace).reverse⟩

/-- `\w` (ASCII). -/
def isWordChar (c : Char) : Bool := c.isAlphanum || c = '_'

/-- Python `str.lower()` (ASCII range, which is all the parser compares). -/
def pyLower (s : String) : String := ⟨s.data.map Char.toLower⟩

namespace SimpleActionParser

/-- The closing tag `</NAME>`. -/
def closerOf (name : List Char) : List Char := '<' :: '/' :: (name ++ ['>'])

/-- The lazy group `([\s\S]*?)</\1>`: split at the earliest occurrence of the
closing tag, returning the inner text and the remainder after the closer. -/
def findClose (closer : List Char) : List Char → Option (List Char × List Char)
  | [] => none
  | c :: rest =>
      if closer.isPrefixOf (c :: rest) then some ([], (c :: rest).drop closer.length)
      else (findClose closer rest).map fun p => (c :: p.1, p.2)

/-- `\s*<(\w+)>([\s\S]*?)</\1>` starting at the current position. -/
def afterAnchor (l : List Char) : Option (String × String × List Char) :=
  match l.dropWhile isPySpace with
  | '<' :: l₂ =>
      let name := l₂.takeWhile isWordChar
      if name.isEmpty then none
      else
        match l₂.drop name.length with
        | '>' :: l₃ =>
            match findClose (closerOf name) l₃ with
            | some (inner, rest) => some (⟨name⟩, ⟨inner⟩, rest)
            | none => none
        | _ => none
  | _ => none

/-- One attempt of the pattern `(?:^|\n)\s*<(\w+)>([\s\S]*?)</\1>` (with
`re.MULTILINE`) at the current position; `prev` is the preceding character, if
any.  The `^` alternative (zero-width, start of string or right after a
newline) is preferred; the `\n` alternative consumes the newline. -/
def tryHere (prev : Option Char) (l : List Char) : Option (String × String × List Char) :=
  match (if prev = none ∨ prev = some '\n' then afterAnchor l else none) with
  | some r => some r
  | none =>
      match l with
      | '\n' :: l₂ => afterAnchor l₂
      | _ => none

/-- `re.findall` scanning: leftmost, non-overlapping matches in order. -/
def scanTags : Nat → Option Char → List Char → List (String × String)
  | 0, _, _ => []
  | fuel + 1, prev, l =>
      match tryHere prev l with
      | some (name, inner, rest) => (name, inner) :: scanTags fuel (some '>') rest
      | none =>
          match l with
          | [] => []
          | c :: l₂ => scanTags fuel (some c) l₂

/-- `SimpleActionParser._extract_xml_tags` (parser.py:108-113). -/
def extract_xml_tags (response : String) : List (String × String) :=
  scanTags (response.data.length + 1) none response.data

/-- `SimpleActionParser._get_action_class_and_data` (parser.py:115-155) fused
with the subsequent `model_validate` call: `none` means "no action class"
(reported as `Unknown action type`), `some (.error …)` a validation error. -/
def dispatch (tag : String) (data : Yaml) : Option (Except String Action) :=
  match tag with
  | "bash" => some (BashAction.model_validate data)
  | "finish" => some (FinishAction.model_validate data)
  | "todo" => some (BatchTodoAction.model_validate data)
  | "task_create" => some (TaskCreateAction.model_validate data)
  | "add_context" => some (AddContextAction.model_validate data)
  | "launch_subagent" => some (LaunchSubagentAction.model_validate data)
  | "report" => some (ReportAction.model_validate data)
  | "write_temp_script" => some (WriteTempScriptAction.model_validate data)
  | "file" =>
      match data with
      | .map kvs =>
          let cleaned := Yaml.map (kvs.filter fun kv => kv.1 ≠ "action")
          match alookup kvs "action" with
          | some (.str "read") => some (ReadAction.model_validate cleaned)
          | some (.str "write") => some (WriteAction.model_validate cleaned)
          | some (.str "edit") => some (EditAction.model_validate cleaned)
          | some (.str "multi_edit") => some (MultiEditAction.model_validate cleaned)
          | some (.str "metadata") => some (FileMetadataAction.model_validate cleaned)
          | _ => none
      | _ => none
  | "search" =>
      match data with
      | .map kvs =>
          let cleaned := Yaml.map (kvs.filter fun kv => kv.1 ≠ "action")
          match alookup kvs "action" with
          | some (.str "grep") => some (GrepAction.model_validate cleaned)
          | some (.str "glob") => some (GlobAction.model_validate cleaned)
          | some (.str "ls") => some (LSAction.model_validate cleaned)
          | _ => none
      | _ => none
  | "scratchpad" =>
      match data with
      | .map kvs =>
          match alookup kvs "action" with
          | some (.str "add_note") =>
              some (AddNoteAction.model_validate
                (.map [("content", (alookup kvs "content").getD (.str ""))]))
          | some (.str "view_all_notes") =>
              some (ViewAllNotesAction.model_validate (.map []))
          | _ => none
      | _ => none
  | _ => none

def IGNORED_TAGS : List String := ["think", "reasoning", "plan_md"]

/-- The body of the `for tag_name, content in …` loop of
`SimpleActionParser.parse_response` (parser.py:76-104). -/
def parseLoop (yamlLoad : String → Except String Yaml) :
    List (String × String) → List Action × List String × Bool
  | [] => ([], [], false)
  | (tag, content) :: rest =>
      if IGNORED_TAGS.contains (pyLower tag) then parseLoop yamlLoad rest
      else
        let (acts, errs, _) := parseLoop yamlLoad rest
        match yamlLoad (pyStrip content) with
        | .error e => (acts, ("[" ++ tag ++ "] YAML error: " ++ e) :: errs, true)
        | .ok data =>
            match dispatch tag data with
            | none => (acts, ("Unknown action type: " ++ tag) :: errs, true)
            | some (.error e) =>
                (acts, ("[" ++ tag ++ "] Validation error: " ++ e) :: errs, true)
            | some (.ok a) => (a :: acts, errs, true)

/-- `SimpleActionParser.parse_response` (parser.py:65-106), parameterized by the
external YAML decoder. -/
def parse_response (yamlLoad : String → Except String Yaml) (response : String) :
    List Action × List String × Bool :=
  parseLoop yamlLoad (extract_xml_tags response)

end SimpleActionParser

/-! ### A decoder for the YAML fragment used in concrete inputs

Modelled from the spec: `yaml.safe_load` is an external library (the spec only
requires "a YAML-compatible document" decode).  `yamlLoadModel` covers the
fragment exercised by the concrete inputs of this development: the empty
document, single plain scalars, and flat `key: value` mappings with scalar
values. -/

def parseYamlScalar (s : String) : Yaml :=
  let t := pyStrip s
  if t = "" then .null
  else if t = "true" then .bool true
  else if t = "false" then .bool false
  else
    match t.data with
    | '"' :: c :: rest =>
        if (c :: rest).getLast? = some '"' then .str ⟨(c :: rest).dropLast⟩ else .str t
    | l =>
        if l.all Char.isDigit then .int (parseDigitsFrom 0 l : Nat) else .str t

/-- Split a character list at every occurrence of `sep` (nonempty);
fuel-indexed for kernel evaluability. -/
def splitOnListAux (sep : List Char) : Nat → List Char → List (List Char)
  | _, [] => [[]]
  | 0, l => [l]
  | fuel + 1, c :: rest =>
      if sep.isPrefixOf (c :: rest) then
        [] :: splitOnListAux sep fuel ((c :: rest).drop sep.length)
      else
        match splitOnListAux sep fuel rest with
        | [] => [[c]]
        | part :: parts => (c :: part) :: parts

def splitOnList (sep : List Char) (l : List Char) : List (List Char) :=
  splitOnListAux sep (l.length + 1) l

def parseYamlLine (line : List Char) : Option (String × Yaml) :=
  match splitOnList [':', ' '] line with
  | k :: v₁ :: vRest =>
      some (pyStrip ⟨k⟩,
        parseYamlScalar ⟨(List.intercalate [':', ' '] (v₁ :: vRest))⟩)
  | _ => none

def yamlLoadModel (s : String) : Except String Yaml :=
  if s = "" then .ok .null
  else
    let lines := splitOnList ['\n'] s.data
    match lines.mapM parseYamlLine with
    | some kvs => .ok (.map kvs)
    | none =>
        match lines with
        | [_] => .ok (parseYamlScalar s)
        | _ => .error "unsupported document shape"

/-! ## The action handler (`parsing/action_handler.py`)

The handler owns the todo manager, the scratchpad, the hub and the per-turn
subagent-trajectory map.  Handlers whose behaviour is environment I/O — the
file, search, bash and temp-script handlers (which call the shared command
executor / filesystem) and the task-create / launch-subagent handlers (which
run a nested subagent driver, modelled separately by `Subagent.run`) — are
routed through an explicit oracle `ext`.  A Python exception escaping a handler
is an `Except.error` carrying the exception text; state mutations made before
the raise persist, so handlers return the (possibly mutated) state alongside. -/

structure TrajEntry where
  agent_type : String
  title : String
  trajectory : Option (List Msg)
  total_input_tokens : Nat
  total_output_tokens : Nat
  deriving DecidableEq, Repr

structure HandlerState where
  todo : TodoState
  scratchpad : List String
  hub : HubState
  subagent_trajectories : List (String × TrajEntry)
  deriving DecidableEq, Repr

/-- `format_tool_output` (action_handler.py:36-47). -/
def format_tool_output (tool_name content : String) : String :=
  "<" ++ tool_name ++ "_output>\n" ++ content ++ "\n</" ++ tool_name ++ "_output>"

namespace ActionHandler

/-- `ActionHandler.truncate_content` (action_handler.py:53-56), `max_length = 15`. -/
def truncate_content (content : String) : String :=
  if content.data.length > 15 then String.mk (content.data.take 15) ++ "..." else content

/-- `f"{task_id}"` for an `Optional[int]`. -/
def showOptInt : Option Int → String
  | some n => toString n
  | none => "None"

/-- The `for op in action.operations` loop of `_handle_batch_todo`
(action_handler.py:127-157).  `truncate_content` applied to a Python `None`
content raises `TypeError`; the exception escapes with the mutations made so
far kept. -/
def run_batch_ops : TodoState → List TodoOperation →
    Except String (List String × Bool) × TodoState
  | t, [] => (.ok ([], false), t)
  | t, op :: rest =>
      if op.action = "add" then
        let t₁ := (TodoManager.add_task t op.content).2
        match op.content with
        | none => (.error "object of type 'NoneType' has no len()", t₁)
        | some c =>
            let line := "Added todo [" ++ toString (TodoManager.add_task t op.content).1
              ++ "]: " ++ truncate_content c
            let rr := run_batch_ops t₁ rest
            ((rr.1.map fun p => (line :: p.1, p.2)), rr.2)
      else if op.action = "complete" then
        match op.task_id.bind (TodoManager.get_task t) with
        | none =>
            let line := "[ERROR] Task " ++ showOptInt op.task_id ++ " not found"
            let rr := run_batch_ops t rest
            ((rr.1.map fun p => (line :: p.1, true)), rr.2)
        | some task =>
            if task.status = "completed" then
              let line := "Task " ++ showOptInt op.task_id ++ " is already completed"
              let rr := run_batch_ops t rest
              ((rr.1.map fun p => (line :: p.1, p.2)), rr.2)
            else
              let t₁ := (TodoManager.complete_task t (op.task_id.getD 0)).2
              match task.content with
              | none => (.error "object of type 'NoneType' has no len()", t₁)
              | some c =>
                  let line := "Completed task [" ++ showOptInt op.task_id ++ "]: "
                    ++ truncate_content c
                  let rr := run_batch_ops t₁ rest
                  ((rr.1.map fun p => (line :: p.1, p.2)), rr.2)
      else if op.action = "delete" then
        match op.task_id.bind (TodoManager.get_task t) with
        | none =>
            let line := "[ERROR] Task " ++ showOptInt op.task_id ++ " not found"
            let rr := run_batch_ops t rest
            ((rr.1.map fun p => (line :: p.1, true)), rr.2)
        | some task =>
            let t₁ := (TodoManager.delete_task t (op.task_id.getD 0)).2
            match task.content with
            | none => (.error "object of type 'NoneType' has no len()", t₁)
            | some c =>
                let line := "Deleted task [" ++ showOptInt op.task_id ++ "]: "
                  ++ truncate_content c
                let rr := run_batch_ops t₁ rest
                ((rr.1.map fun p => (line :: p.1, p.2)), rr.2)
      else
        -- "view_all" (deferred past the loop) and any other value: no result line
        run_batch_ops t rest

/-- `ActionHandler._handle_batch_todo` (action_handler.py:122-166). -/
def handle_batch_todo (st : HandlerState) (operations : List TodoOperation)
    (view_all : Bool) : Except String (String × Bool) × HandlerState :=
  let rb := run_batch_ops st.todo operations
  match rb.1 with
  | .error e => (.error e, { st with todo := rb.2 })
  | .ok (results, has_error) =>
      let response := String.intercalate "\n" results
      let response :=
        if view_all then response ++ "\n\n" ++ TodoManager.view_all rb.2 else response
      (.ok (format_tool_output "todo" response, has_error), { st with todo := rb.2 })

/-- `ActionHandler._handle_add_note` (action_handler.py:168-175). -/
def handle_add_note (st : HandlerState) (content : String) :
    Except String (String × Bool) × HandlerState :=
  if content = "" then
    (.ok (format_tool_output "scratchpad" "[ERROR] Cannot add empty note", true), st)
  else
    let notes := st.scratchpad ++ [content]
    (.ok (format_tool_output "scratchpad"
        ("Added note " ++ toString notes.length ++ " to scratchpad"), false),
      { st with scratchpad := notes })

/-- `ActionHandler._handle_add_context` (action_handler.py:300-319): delegates
to the hub; a duplicate id yields a warning with `is_error = True`. -/
def handle_add_context (st : HandlerState) (id content reported_by : String)
    (task_id : Option String) (now : String) :
    Except String (String × Bool) × HandlerState :=
  let r := OrchestratorHub.add_context st.hub id content reported_by task_id now
  let response :=
    if r.1 then "Added context '" ++ id ++ "' to store"
    else "[WARNING] Context '" ++ id ++ "' already exists in store"
  (.ok (format_tool_output "context" response, !r.1), { st with hub := r.2 })

/-- `ActionHandler.handle_action` (action_handler.py:109-115): dispatch on the
action variant.  `now` is the wall-clock timestamp for hub insertions. -/
def handle_action
    (ext : HandlerState → Action → Except String (String × Bool) × HandlerState)
    (now : String) (st : HandlerState) (a : Action) :
    Except String (String × Bool) × HandlerState :=
  match a with
  | .batchTodo operations view_all => handle_batch_todo st operations view_all
  | .addNote content => handle_add_note st content
  | .viewAllNotes =>
      (.ok (format_tool_output "scratchpad" (ScratchpadManager.view_all st.scratchpad),
        false), st)
  | .finish message =>
      (.ok (format_tool_output "finish" ("Task marked as complete: " ++ message),
        false), st)
  | .addContext id content reported_by task_id =>
      handle_add_context st id content reported_by task_id now
  | .report _ _ =>
      (.ok (format_tool_output "report" "Report submission successful", false), st)
  | _ => ext st a

/-- `ActionHandler.get_and_clear_subagent_trajectories` (action_handler.py:400-404). -/
def get_and_clear_subagent_trajectories (st : HandlerState) :
    List (String × TrajEntry) × HandlerState :=
  (st.subagent_trajectories, { st with subagent_trajectories := [] })

end ActionHandler

/-! ## The turn executor (`env_interaction/turn_executor.py`) -/

structure ExecutionResult where
  actions_executed : List Action
  env_responses : List String
  has_error : Bool
  finish_message : Option String
  done : Bool
  subagent_trajectories : Option (List (String × TrajEntry))
  deriving DecidableEq, Repr

def Action.isFinish : Action → Bool
  | .finish _ => true
  | _ => false

def Action.isReport : Action → Bool
  | .report _ _ => true
  | _ => false

def Action.finishMessage : Action → String
  | .finish m => m
  | _ => ""

namespace TurnExecutor

/-- Accumulator of the action-execution loop. -/
structure ExecLoop (σ : Type) where
  actions_executed : List Action
  env_responses : List String
  has_error : Bool
  finish_message : Option String
  done : Bool
  state : σ

/-- The `for action in actions` loop of `TurnExecutor.execute`
(turn_executor.py:74-95): one env response per handled action, `[ERROR] Action
execution failed: …` (without recording the action) when the handler raises,
stop after a `Finish` action. -/
def execActions {σ : Type}
    (handle : σ → Action → Except String (String × Bool) × σ) :
    σ → List Action → ExecLoop σ
  | st, [] => ⟨[], [], false, none, false, st⟩
  | st, a :: rest =>
      let hr := handle st a
      match hr.1 with
      | .error e =>
          let k := execActions handle hr.2 rest
          ⟨k.actions_executed, ("[ERROR] Action execution failed: " ++ e) :: k.env_responses,
            true, k.finish_message, k.done, k.state⟩
      | .ok (out, isErr) =>
          if a.isFinish then ⟨[a], [out], isErr, some a.finishMessage, true, hr.2⟩
          else
            let k := execActions handle hr.2 rest
            ⟨a :: k.actions_executed, out :: k.env_responses, isErr || k.has_error,
              k.finish_message, k.done, k.state⟩

/-- `TurnExecutor.execute` (turn_executor.py:27-107), parameterized by the
constructor-injected parser and action handler (and the trajectory drain). -/
def execute {σ : Type}
    (parse : String → List Action × List String × Bool)
    (handle : σ → Action → Except String (String × Bool) × σ)
    (drain : σ → List (String × TrajEntry) × σ)
    (st : σ) (llm_output : String) : ExecutionResult × σ :=
  let pr := parse llm_output
  let actions := pr.1
  let parsing_errors := pr.2.1
  let found_action_attempt := pr.2.2
  if !found_action_attempt then
    (⟨[], ["No actions were attempted."], true, none, true, none⟩, st)
  else
    let errResponses := parsing_errors.map fun e => "[PARSE ERROR] " ++ e
    if parsing_errors ≠ [] ∧ actions = [] then
      (⟨[], errResponses, true, none, false, none⟩, st)
    else
      let k := execActions handle st actions
      let dr := drain k.state
      (⟨k.actions_executed, errResponses ++ k.env_responses,
        (decide (parsing_errors ≠ [])) || k.has_error, k.finish_message, k.done,
        if dr.1 = [] then none else some dr.1⟩, dr.2)

end TurnExecutor

/-! ## The subagent driver (`subagent.py`)

The LLM transport is an oracle `llm` indexed by the number of calls made so
far (each index may answer, or raise, independently); `executeTurn` is the
constructor-injected `TurnExecutor.execute`; `countIn` / `countOut` stand for
the external token counters (`count_input_tokens` / `count_output_tokens`);
the system message is loaded from an external file and passed in. -/

structure BootstrapCtx where
  path : String
  content : String
  reason : String
  deriving DecidableEq, Repr

structure SubagentTask where
  agent_type : String
  title : String
  description : String
  ctx_store_ctxts : List (String × String)
  bootstrap_ctxts : List BootstrapCtx
  deriving DecidableEq, Repr

namespace Subagent

/-- `Subagent._build_task_prompt` (subagent.py:107-130). -/
def build_task_prompt (task : SubagentTask) : String :=
  let sections :=
    ["# Task: " ++ task.title ++ "\n", task.description ++ "\n"]
    ++ (if task.ctx_store_ctxts ≠ [] then
          "## Provided Context\n" ::
            (task.ctx_store_ctxts.flatMap fun (ctx_id, content) =>
              ["### Context: " ++ ctx_id ++ "\n", content ++ "\n"])
        else [])
    ++ (if task.bootstrap_ctxts ≠ [] then
          "## Relevant Files/Directories\n" ::
            (task.bootstrap_ctxts.map fun item =>
              "- " ++ item.path ++ ": " ++ item.reason ++ "\n")
        else [])
    ++ ["\nBegin your investigation/implementation now."]
  String.intercalate "\n" sections

/-- Truthiness-preserving rendering of a raw YAML value into the `str`-typed
`ContextItem` fields (`ContextItem(id=ctx["id"], …)` keeps whatever object the
dict holds; falsy Python values map to the falsy `""`). -/
def yamlCtxField : Yaml → String
  | .str s => s
  | .null => ""
  | .bool false => ""
  | .bool true => "True"
  | .int n => if n = 0 then "" else toString n
  | .arr xs => if xs = [] then "" else "[nonscalar]"
  | .map kvs => if kvs = [] then "" else "[nonscalar]"

/-- `Subagent._check_for_report` (subagent.py:154-172): first `ReportAction`
wins; a context dict without an `id` / `content` key raises `KeyError`. -/
def check_for_report (messages : List Msg) : List Action → Except String (Option SubagentReport)
  | [] => .ok none
  | .report ctxs comments :: _ => do
      let contexts ← ctxs.mapM fun kvs => do
        let i ← match alookup kvs "id" with
          | some v => pure (yamlCtxField v)
          | none => Except.error "KeyError: 'id'"
        let c ← match alookup kvs "content" with
          | some v => pure (yamlCtxField v)
          | none => Except.error "KeyError: 'content'"
        pure (ContextItem.mk i c)
      .ok (some ⟨contexts, comments, some ⟨some messages, none, 0, 0⟩⟩)
  | _ :: rest => check_for_report messages rest

def setMeta (r : SubagentReport) (num_turns input_tokens output_tokens : Nat) :
    SubagentReport :=
  { r with
      meta :=
        match r.meta with
        | some m =>
            some { m with
                     num_turns := some num_turns
                     total_input_tokens := input_tokens
                     total_output_tokens := output_tokens }
        | none => none }

/-- The force-report instruction appended on budget exhaustion
(subagent.py:255-268). -/
def force_report_msg : String :=
  "\n\n⚠️ CRITICAL: MAXIMUM TURNS REACHED ⚠️\n"
  ++ "You have reached the maximum number of allowed turns.\n"
  ++ "You MUST now submit a report using ONLY the <report> action.\n"
  ++ "NO OTHER ACTIONS ARE ALLOWED.\n\n"
  ++ "Instructions:\n"
  ++ "1. Use ONLY the <report> action\n"
  ++ "2. Include ALL contexts you have discovered so far\n"
  ++ "3. In the comments section:\n"
  ++ "   - Summarize what you have accomplished\n"
  ++ "   - If the task is incomplete, explain what remains to be done\n"
  ++ "   - Describe what you were about to do next and why\n\n"
  ++ "SUBMIT YOUR REPORT NOW."

/-- The fallback report (subagent.py:325-334). -/
def fallbackReport (max_turns : Nat) (messages : List Msg)
    (input_tokens output_tokens : Nat) : SubagentReport :=
  ⟨[],
    "Task incomplete - reached maximum turns (" ++ toString max_turns
      ++ ") without proper completion. Agent failed to provide report when requested.",
    some ⟨some messages, some max_turns, input_tokens, output_tokens⟩⟩

inductive LoopExit where
  | reported (report : SubagentReport) (calls : Nat)
  | exhausted (messages : List Msg) (calls : Nat)
  deriving Repr

/-- The `for turn_num in range(self.max_turns)` loop of `Subagent.run`
(subagent.py:182-239).  An exception from the LLM call or from
`_check_for_report` appends an `Error occurred: …` user message and continues. -/
def runLoop (llm : Nat → List Msg → Except String String)
    (executeTurn : String → ExecutionResult)
    (countIn countOut : List Msg → Nat) :
    Nat → Nat → List Msg → Nat → LoopExit
  | 0, _, msgs, calls => .exhausted msgs calls
  | n + 1, turn_num, msgs, calls =>
      match llm calls msgs with
      | .error e =>
          runLoop llm executeTurn countIn countOut n (turn_num + 1)
            (msgs ++ [⟨"user", "Error occurred: " ++ e ++ ". Please continue."⟩]) (calls + 1)
      | .ok llm_response =>
          let msgs₁ := msgs ++ [⟨"assistant", llm_response⟩]
          let result := executeTurn llm_response
          let msgs₂ := msgs₁ ++ [⟨"user", String.intercalate "\n" result.env_responses⟩]
          match check_for_report msgs₂ result.actions_executed with
          | .error e =>
              runLoop llm executeTurn countIn countOut n (turn_num + 1)
                (msgs₂ ++ [⟨"user", "Error occurred: " ++ e ++ ". Please continue."⟩])
                (calls + 1)
          | .ok none =>
              runLoop llm executeTurn countIn countOut n (turn_num + 1) msgs₂ (calls + 1)
          | .ok (some report) =>
              .reported (setMeta report (turn_num + 1) (countIn msgs₂) (countOut msgs₂))
                (calls + 1)

/-- The in-place mutation of the last user message (subagent.py:270-275):
append the force-report instruction to it, or add a fresh (stripped) user
message when the last message is not a user one. -/
def force_messages (msgs : List Msg) : List Msg :=
  match msgs.getLast? with
  | some m =>
      if m.role = "user" then
        msgs.dropLast ++ [⟨"user", m.content ++ force_report_msg⟩]
      else msgs ++ [⟨"user", pyStrip force_report_msg⟩]
  | none => msgs ++ [⟨"user", pyStrip force_report_msg⟩]

/-- The force-report protocol (subagent.py:241-334): mutate the last user
message in place (or append one), make one final LLM call, and fall back to a
synthesized report if it yields no `Report` action (or raises). -/
def forcePhase (llm : Nat → List Msg → Except String String)
    (executeTurn : String → ExecutionResult)
    (countIn countOut : List Msg → Nat) (max_turns : Nat)
    (msgs : List Msg) (calls : Nat) : SubagentReport × Nat :=
  match llm calls (force_messages msgs) with
  | .error _ =>
      (fallbackReport max_turns (force_messages msgs)
        (countIn (force_messages msgs)) (countOut (force_messages msgs)), calls + 1)
  | .ok llm_response =>
      let msgs'' := force_messages msgs ++ [⟨"assistant", llm_response⟩]
      match check_for_report msgs'' (executeTurn llm_response).actions_executed with
      | .ok (some report) =>
          (setMeta report (max_turns + 1) (countIn msgs'') (countOut msgs''), calls + 1)
      | .ok none =>
          (fallbackReport max_turns msgs'' (countIn msgs'') (countOut msgs''), calls + 1)
      | .error _ =>
          (fallbackReport max_turns msgs'' (countIn msgs'') (countOut msgs''), calls + 1)

/-- `Subagent.run` (subagent.py:174-334); the second component counts LLM
invocations. -/
def run (llm : Nat → List Msg → Except String String)
    (executeTurn : String → ExecutionResult)
    (countIn countOut : List Msg → Nat)
    (system_message : String) (task : SubagentTask) (max_turns : Nat) :
    SubagentReport × Nat :=
  let messages : List Msg :=
    [⟨"system", system_message⟩, ⟨"user", build_task_prompt task⟩]
  match runLoop llm executeTurn countIn countOut max_turns 0 messages 0 with
  | .reported report calls => (report, calls)
  | .exhausted msgs calls =>
      forcePhase llm executeTurn countIn countOut max_turns msgs calls

end Subagent

/-- `Subagent._load_system_message` (subagent.py:98-105): the explorer / coder
system messages are external files, passed in as the first two arguments; any
other agent type raises `ValueError`. -/
def Subagent.load_system_message (explorer_msg coder_msg : String)
    (agent_type : String) : Except String String :=
  if agent_type = "explorer" then .ok explorer_msg
  else if agent_type = "coder" then .ok coder_msg
  else .error ("Unknown agent type: " ++ agent_type)

/-! ## The LLM client wrapper (`utils/llm_client.py`)

To make the mutation discipline of `_apply_anthropic_caching_if_possible`
expressible, message objects live in an explicit heap (`List ChatMessage`) and
the caller's message list is a list of heap references; `copy.deepcopy`
allocates fresh slots, and the `cache_control` mutations are `List.set` writes
on those fresh slots.  `litellm.completion` is an oracle indexed by the
attempt number, `random.uniform(0, b)` an oracle giving the draw for each
attempt, `time.sleep` is recorded in a list of delays.  The environment-variable
fallbacks and the `litellm` global configuration (llm_client.py:108-118) are
process-environment I/O outside the model; the embedding covers lines 16-96 and
120-158. -/

inductive ContentPart where
  | dict (ty : Option String) (text : Option String) (cache_control : Bool)
  | nondict
  deriving DecidableEq, Repr

inductive PyContent where
  | str (s : String)
  | list (items : List ContentPart)
  | other
  deriving DecidableEq, Repr

structure ChatMessage where
  role : String
  content : PyContent
  deriving DecidableEq, Repr

/-- Python `needle in hay` on strings. -/
def strContainsSub (hay needle : String) : Bool :=
  go hay.data
where
  go : List Char → Bool
    | [] => needle.data.isEmpty
    | c :: rest => needle.data.isPrefixOf (c :: rest) || go rest

/-- The per-message `cache_control` annotation (llm_client.py:44-59 and the two
identical user-message blocks): a string content is promoted to a one-element
list with an ephemeral cache tag; in a list content every dict item carrying a
`text` key gets the tag; any other content shape is left alone. -/
def annotateMsg (m : ChatMessage) : ChatMessage :=
  match m.content with
  | .str s => { m with content := .list [.dict (some "text") (some s) true] }
  | .list items =>
      { m with
          content := .list (items.map fun it =>
            match it with
            | .dict ty (some t) _ => .dict ty (some t) true
            | x => x) }
  | .other => m

def annotateAt (h : List ChatMessage) (i : Nat) : List ChatMessage :=
  match h.get? i with
  | some m => h.set i (annotateMsg m)
  | none => h

/-- The guarded `if <idx> is not None: <annotate>` steps of
`_apply_anthropic_caching_if_possible`: annotate the slot `base + i` when an
index `i` was found, else leave the heap alone. -/
def annIfAt (base : Nat) (hp : List ChatMessage) : Option Nat → List ChatMessage
  | some i => annotateAt hp (base + i)
  | none => hp

/-- `_apply_anthropic_caching_if_possible` (llm_client.py:16-96) over the heap:
returns the (possibly extended and mutated) heap and the message references
the subsequent `litellm.completion` call uses. -/
def applyAnthropicCachingIfPossible (h : List ChatMessage) (refs : List Nat)
    (model : String) : List ChatMessage × List Nat :=
  if !(model ≠ "" && strContainsSub model "anthropic/") then (h, refs)
  else
    let base := h.length
    let copies := refs.map fun r => (h.get? r).getD ⟨"", .other⟩
    let h₁ := h ++ copies
    let sysIdx := ((copies.enum.filter fun p => p.2.role = "system").getLast?).map (·.1)
    let userIdxs := (copies.enum.filter fun p => p.2.role = "user").map (·.1)
    let h₂ := annIfAt base h₁ sysIdx
    let h₃ := annIfAt base h₂ userIdxs.getLast?
    let h₄ :=
      if userIdxs.length ≥ 2 then annIfAt base h₃ (userIdxs.get? (userIdxs.length - 2))
      else h₃
    (h₄, (List.range refs.length).map (base + ·))

/-- The exception model: `litellm.exceptions.InternalServerError` with its
`str(e)` text; everything else is some other exception. -/
structure LlmError where
  isInternalServerError : Bool
  message : String
  deriving DecidableEq, Repr

def isOverloadedError (e : LlmError) : Bool :=
  e.isInternalServerError && strContainsSub e.message "overloaded_error"

/-- The `for attempt in range(max_retries)` loop of `get_llm_response`
(llm_client.py:124-158).  Returns the outcome, the recorded `time.sleep`
delays in order, and the number of `litellm.completion` calls made. -/
def retryLoop (completion : Nat → Except LlmError String) (uniform : Nat → ℚ)
    (max_retries : Nat) :
    Nat → Nat → List ℚ → Except LlmError String × List ℚ × Nat
  | 0, attempt, sleeps =>
      -- the trailing `raise RuntimeError(...)` after the loop
      (.error ⟨false, "Failed to get LLM response after maximum retries."⟩,
        sleeps.reverse, attempt)
  | fuel + 1, attempt, sleeps =>
      match completion attempt with
      | .ok s => (.ok s, sleeps.reverse, attempt + 1)
      | .error e =>
          if isOverloadedError e then
            if attempt < max_retries - 1 then
              let base_delay : ℚ := 2 ^ attempt
              let jitter := uniform attempt
              let delay := min (base_delay + jitter) 60
              retryLoop completion uniform max_retries fuel (attempt + 1) (delay :: sleeps)
            else (.error e, sleeps.reverse, attempt + 1)
          else (.error e, sleeps.reverse, attempt + 1)

structure LlmCallOutcome where
  result : Except LlmError String
  sleeps : List ℚ
  calls : Nat
  finalHeap : List ChatMessage
  processedRefs : List Nat
  deriving Repr

/-- `get_llm_response` (llm_client.py:99-158, from line 120), with
`max_retries` explicit (the source default is 10). -/
def get_llm_response (completion : Nat → Except LlmError String) (uniform : Nat → ℚ)
    (model : String) (h : List ChatMessage) (messages : List Nat)
    (max_retries : Nat) : LlmCallOutcome :=
  let ar := applyAnthropicCachingIfPossible h messages model
  let rr := retryLoop completion uniform max_retries max_retries 0 []
  ⟨rr.1, rr.2.1, rr.2.2, ar.1, ar.2⟩

/-! ## Hub lemmas -/

namespace OrchestratorHub

theorem add_context_preserves (s : HubState) (k x rb : String) (tid : Option String)
    (now : String) (id : String) (c : Context)
    (h : alookup s.context_store id = some c) :
    alookup ((add_context s k x rb tid now).2).context_store id = some c := by
  unfold add_context
  cases hk : alookup s.context_store k with
  | some v => simp [hk, h]
  | none =>
      have hne : k ≠ id := by
        intro he
        subst he
        rw [h] at hk
        cases hk
      simp [hk, alookup_aset_ne _ _ _ _ hne, h]

theorem store_report_preserves (tid now : String) (ctxs : List ContextItem) :
    ∀ (s : HubState) (id : String) (c : Context),
      alookup s.context_store id = some c →
      alookup ((store_report_contexts s tid ctxs now).2).context_store id = some c := by
  induction ctxs with
  | nil => intro s id c h; simpa [store_report_contexts] using h
  | cons ctx rest ih =>
      intro s id c h
      by_cases hc : ctx.id ≠ "" ∧ ctx.content ≠ ""
      · have h₁ := add_context_preserves s ctx.id ctx.content tid (some tid) now id c h
        have h₂ := ih ((add_context s ctx.id ctx.content tid (some tid) now).2) id c h₁
        simpa [store_report_contexts, hc] using h₂
      · simpa [store_report_contexts, hc] using ih s id c h

theorem update_task_status_store (s : HubState) (task_id : String) (st : TaskStatus)
    (now : String) :
    ((update_task_status s task_id st now).2).context_store = s.context_store := by
  unfold update_task_status
  match h : alookup s.tasks task_id with
  | none => simp
  | some t => simp

theorem process_subagent_result_store_preserves (s : HubState) (tid now : String)
    (report : SubagentReport) (id : String) (c : Context)
    (h : alookup s.context_store id = some c) :
    alookup ((process_subagent_result s tid report now).2).context_store id = some c := by
  have h₁ := store_report_preserves tid now report.contexts s id c h
  cases hl : alookup ((store_report_contexts s tid report.contexts now).2).tasks tid with
  | none => simpa [process_subagent_result, hl] using h₁
  | some task =>
      simpa [process_subagent_result, hl, update_task_status_store] using h₁

end OrchestratorHub

theorem applyOp_store_preserves (s : HubState) (op : HubOp) (id : String) (c : Context)
    (h : alookup s.context_store id = some c) :
    alookup ((applyOp s op).context_store) id = some c := by
  cases op with
  | create a t d r b n => simpa [applyOp, OrchestratorHub.create_task] using h
  | addCtx k x rb tid now => exact OrchestratorHub.add_context_preserves s k x rb tid now id c h
  | processResult tid report now =>
      exact OrchestratorHub.process_subagent_result_store_preserves s tid now report id c h

/-- **C1** (context immutability).  Once a context id is bound in the store:
`add_context` for that id returns `False` and leaves the whole hub state
untouched; the orchestrator's `AddContext` handler renders the duplicate-id
warning with `is_error = True` and changes nothing; and no hub operation
whatsoever rebinds the id — the stored value survives any operation, so no
store value is ever overwritten. -/
theorem c1_context_immutability
    (s : HubState) (id : String) (c : Context)
    (h : alookup s.context_store id = some c)
    (content reported_by : String) (task_id : Option String) (now : String) :
    OrchestratorHub.add_context s id content reported_by task_id now = (false, s)
    ∧ (∀ (ext : HandlerState → Action → Except String (String × Bool) × HandlerState)
         (st : HandlerState), st.hub = s →
        ActionHandler.handle_action ext now st (.addContext id content reported_by task_id)
          = (.ok (format_tool_output "context"
              ("[WARNING] Context '" ++ id ++ "' already exists in store"), true), st))
    ∧ (∀ op : HubOp, alookup ((applyOp s op).context_store) id = some c) := by
  have hdup : (alookup s.context_store id).isSome = true := by simp [h]
  refine ⟨?_, ?_, ?_⟩
  · unfold OrchestratorHub.add_context
    simp [hdup]
  · intro ext st hst
    show ActionHandler.handle_add_context st id content reported_by task_id now = _
    unfold ActionHandler.handle_add_context
    rw [hst]
    unfold OrchestratorHub.add_context
    have hst' : { st with hub := s } = st := by
      cases st; simp_all
    simp [hdup, hst']
  · intro op
    exact applyOp_store_preserves s op id c h

/-- Witness for `c1_context_immutability` at a concrete store holding id `"x"`. -/
theorem c1_context_immutability_witness :
    OrchestratorHub.add_context
        (OrchestratorHub.add_context hub0 "x" "v" "tester" none "t0").2
        "x" "other" "r2" none "t1"
      = (false, (OrchestratorHub.add_context hub0 "x" "v" "tester" none "t0").2) :=
  (c1_context_immutability
    (OrchestratorHub.add_context hub0 "x" "v" "tester" none "t0").2
    "x" ⟨"x", "v", "tester", none, "t0"⟩ (by decide) "other" "r2" none "t1").1

/-! ## Characterization of `store_report_contexts` (for C8 / C9) -/

namespace OrchestratorHub

theorem store_report_tasks (tid now : String) (ctxs : List ContextItem) :
    ∀ s : HubState, ((store_report_contexts s tid ctxs now).2).tasks = s.tasks := by
  induction ctxs with
  | nil => intro s; simp [store_report_contexts]
  | cons ctx rest ih =>
      intro s
      by_cases hc : ctx.id ≠ "" ∧ ctx.content ≠ ""
      · have := ih ((add_context s ctx.id ctx.content tid (some tid) now).2)
        rw [show ((add_context s ctx.id ctx.content tid (some tid) now).2).tasks = s.tasks by
          unfold add_context
          cases hk : alookup s.context_store ctx.id with
          | some v => simp [hk]
          | none => simp [hk]] at this
        simpa [store_report_contexts, hc] using this
      · simpa [store_report_contexts, hc] using ih s

theorem store_report_counter (tid now : String) (ctxs : List ContextItem) :
    ∀ s : HubState, ((store_report_contexts s tid ctxs now).2).task_counter = s.task_counter := by
  induction ctxs with
  | nil => intro s; simp [store_report_contexts]
  | cons ctx rest ih =>
      intro s
      by_cases hc : ctx.id ≠ "" ∧ ctx.content ≠ ""
      · have := ih ((add_context s ctx.id ctx.content tid (some tid) now).2)
        rw [show ((add_context s ctx.id ctx.content tid (some tid) now).2).task_counter
              = s.task_counter by
          unfold add_context
          cases hk : alookup s.context_store ctx.id with
          | some v => simp [hk]
          | none => simp [hk]] at this
        simpa [store_report_contexts, hc] using this
      · simpa [store_report_contexts, hc] using ih s

theorem store_report_mono (tid now : String) (ctxs : List ContextItem)
    (s : HubState) (i : String) (h : (alookup s.context_store i).isSome) :
    (alookup ((store_report_contexts s tid ctxs now).2).context_store i).isSome := by
  obtain ⟨c, hc⟩ := Option.isSome_iff_exists.mp h
  have := store_report_preserves tid now ctxs s i c hc
  simp [this]

/-- Every report item with non-empty id and content ends up present in the
store, and — when its id was not already bound — in the returned
`context_ids_stored` list. -/
theorem store_report_inserts (tid now : String) (ctxs : List ContextItem) :
    ∀ (s : HubState) (ctx : ContextItem), ctx ∈ ctxs → ctx.id ≠ "" → ctx.content ≠ "" →
      (alookup ((store_report_contexts s tid ctxs now).2).context_store ctx.id).isSome
      ∧ (alookup s.context_store ctx.id = none →
          ctx.id ∈ (store_report_contexts s tid ctxs now).1) := by
  induction ctxs with
  | nil => intro s ctx hmem; cases hmem
  | cons hd rest ih =>
      intro s ctx hmem hid hcontent
      rcases List.mem_cons.mp hmem with heq | htail
      · subst heq
        have hc : ctx.id ≠ "" ∧ ctx.content ≠ "" := ⟨hid, hcontent⟩
        constructor
        · cases hk : alookup s.context_store ctx.id with
          | some v =>
              have hpres := store_report_preserves tid now rest
                ((add_context s ctx.id ctx.content tid (some tid) now).2) ctx.id v
                (by unfold add_context; simp [hk])
              simp [store_report_contexts, hc, hpres]
          | none =>
              have hself : alookup ((add_context s ctx.id ctx.content tid
                  (some tid) now).2).context_store ctx.id
                  = some ⟨ctx.id, ctx.content, tid, some tid, now⟩ := by
                unfold add_context
                simp [hk, alookup_aset_self]
              have hpres := store_report_preserves tid now rest
                ((add_context s ctx.id ctx.content tid (some tid) now).2) ctx.id _ hself
              simp [store_report_contexts, hc, hpres]
        · intro hnone
          have hsucc : (add_context s ctx.id ctx.content tid (some tid) now).1 = true := by
            unfold add_context
            simp [hnone]
          simp [store_report_contexts, hc, hsucc]
      · by_cases hc : hd.id ≠ "" ∧ hd.content ≠ ""
        · have ihr := ih ((add_context s hd.id hd.content tid (some tid) now).2)
            ctx htail hid hcontent
          constructor
          · simpa [store_report_contexts, hc] using ihr.1
          · intro hnone
            by_cases hsame : hd.id = ctx.id
            · -- the head already (freshly) inserted this id, so it is in the list
              have hnone' : alookup s.context_store hd.id = none := by
                rw [hsame]; exact hnone
              have hsucc : (add_context s hd.id hd.content tid (some tid) now).1 = true := by
                unfold add_context
                simp [hnone']
              rw [← hsame]
              simp [store_report_contexts, hc, hsucc]
            · have hnone' : alookup ((add_context s hd.id hd.content tid
                  (some tid) now).2).context_store ctx.id = none := by
                unfold add_context
                cases hk : alookup s.context_store hd.id with
                | some v => simp [hk, hnone]
                | none => simp [hk, alookup_aset_ne _ _ _ _ hsame, hnone]
              have := ihr.2 hnone'
              by_cases hsucc : (add_context s hd.id hd.content tid (some tid) now).1 = true
              · simp [store_report_contexts, hc, hsucc]
                right
                exact this
              · simp [store_report_contexts, hc, Bool.of_not_eq_true hsucc]
                exact this
        · have ihr := ih s ctx htail hid hcontent
          constructor
          · simpa [store_report_contexts, hc] using ihr.1
          · intro hnone
            have := ihr.2 hnone
            simpa [store_report_contexts, hc] using this

/-- Every id in the returned `context_ids_stored` list stems from a report item
with non-empty id and content. -/
theorem store_report_ids_from (tid now : String) (ctxs : List ContextItem) :
    ∀ (s : HubState) (i : String), i ∈ (store_report_contexts s tid ctxs now).1 →
      ∃ ctx, ctx ∈ ctxs ∧ ctx.id = i ∧ ctx.id ≠ "" ∧ ctx.content ≠ "" := by
  induction ctxs with
  | nil => intro s i h; simp [store_report_contexts] at h
  | cons hd rest ih =>
      intro s i h
      by_cases hc : hd.id ≠ "" ∧ hd.content ≠ ""
      · by_cases hsucc : (add_context s hd.id hd.content tid (some tid) now).1 = true
        · simp [store_report_contexts, hc, hsucc] at h
          rcases h with heq | htail
          · exact ⟨hd, List.mem_cons_self _ _, heq.symm, hc⟩
          · obtain ⟨ctx, hmem, rest'⟩ := ih _ i htail
            exact ⟨ctx, List.mem_cons_of_mem _ hmem, rest'⟩
        · simp [store_report_contexts, hc, Bool.of_not_eq_true hsucc] at h
          obtain ⟨ctx, hmem, rest'⟩ := ih _ i h
          exact ⟨ctx, List.mem_cons_of_mem _ hmem, rest'⟩
      · simp [store_report_contexts, hc] at h
        obtain ⟨ctx, hmem, rest'⟩ := ih s i h
        exact ⟨ctx, List.mem_cons_of_mem _ hmem, rest'⟩

/-- Filtering out the empty-id / empty-content items first changes nothing. -/
theorem store_report_filter (tid now : String) (ctxs : List ContextItem) :
    ∀ s : HubState,
      store_report_contexts s tid (ctxs.filter fun c => c.id != "" && c.content != "") now
        = store_report_contexts s tid ctxs now := by
  induction ctxs with
  | nil => intro s; simp
  | cons hd rest ih =>
      intro s
      by_cases hc : hd.id ≠ "" ∧ hd.content ≠ ""
      · have hb : (hd.id != "" && hd.content != "") = true := by
          simp [bne_iff_ne, hc.1, hc.2]
        simp only [List.filter_cons, hb, if_pos]
        rw [show (store_report_contexts s tid (hd :: rest) now)
              = (let r := add_context s hd.id hd.content tid (some tid) now
                 let rr := store_report_contexts r.2 tid rest now
                 (if r.1 then hd.id :: rr.1 else rr.1, rr.2)) by
          simp [store_report_contexts, hc]]
        rw [show (store_report_contexts s tid
                (hd :: rest.filter fun c => c.id != "" && c.content != "") now)
              = (let r := add_context s hd.id hd.content tid (some tid) now
                 let rr := store_report_contexts r.2 tid
                   (rest.filter fun c => c.id != "" && c.content != "") now
                 (if r.1 then hd.id :: rr.1 else rr.1, rr.2)) by
          simp [store_report_contexts, hc]]
        simp only [ih]
      · have hb : (hd.id != "" && hd.content != "") = false := by
          rcases not_and_or.mp hc with h | h
          · simp [bne_iff_ne, Ne, not_not.mp h]
          · simp [bne_iff_ne, Ne, not_not.mp h]
        rw [show (hd :: rest).filter (fun c => c.id != "" && c.content != "")
              = rest.filter (fun c => c.id != "" && c.content != "") by
          simp [List.filter_cons, hb]]
        rw [ih]
        rw [show store_report_contexts s tid (hd :: rest) now
              = store_report_contexts s tid rest now by
          simp [store_report_contexts, hc]]

end OrchestratorHub

/-- **C8** (counterexample to the claim as stated): a report context item with
empty content is *non-duplicate* (its id `"a"` is unbound in the empty store),
yet `process_subagent_result` for an unregistered task id does not insert it —
the store stays empty and the returned `context_ids_stored` is `[]`, so "inserts
every non-duplicate context from the report" fails. -/
theorem c8_counterexample :
    alookup hub0.context_store "a" = none
    ∧ OrchestratorHub.process_subagent_result hub0 "task_x"
        ⟨[⟨"a", ""⟩], "c", none⟩ "t0"
      = (⟨"task_x", [], "c"⟩, hub0) := by
  constructor
  · rfl
  · rfl

/-- **C8** (amended): calling `process_subagent_result` with a task id that is
not registered does not raise (the embedding is total) and leaves the task
registry and counter untouched, yet it still inserts every non-duplicate
context *whose id and content are non-empty* into the store (fresh ids also
appear in the returned list), and returns a normal result dictionary carrying
that task id and the report's comments. -/
theorem c8_unregistered_task_processed
    (s : HubState) (tid now : String) (report : SubagentReport)
    (h : alookup s.tasks tid = none) :
    ((OrchestratorHub.process_subagent_result s tid report now).2).tasks = s.tasks
    ∧ ((OrchestratorHub.process_subagent_result s tid report now).2).task_counter
        = s.task_counter
    ∧ (OrchestratorHub.process_subagent_result s tid report now).1.task_id = tid
    ∧ (OrchestratorHub.process_subagent_result s tid report now).1.comments
        = report.comments
    ∧ ∀ ctx ∈ report.contexts, ctx.id ≠ "" → ctx.content ≠ "" →
        (alookup ((OrchestratorHub.process_subagent_result s tid report now).2).context_store
            ctx.id).isSome
        ∧ (alookup s.context_store ctx.id = none →
            ctx.id ∈ (OrchestratorHub.process_subagent_result
                s tid report now).1.context_ids_stored) := by
  have htasks := OrchestratorHub.store_report_tasks tid now report.contexts s
  have hnone : alookup ((OrchestratorHub.store_report_contexts
      s tid report.contexts now).2).tasks tid = none := by rw [htasks]; exact h
  have hproc : OrchestratorHub.process_subagent_result s tid report now
      = (⟨tid, (OrchestratorHub.store_report_contexts s tid report.contexts now).1,
          report.comments⟩,
        (OrchestratorHub.store_report_contexts s tid report.contexts now).2) := by
    unfold OrchestratorHub.process_subagent_result
    simp [hnone]
  refine ⟨?_, ?_, ?_, ?_, ?_⟩
  · rw [hproc]; exact htasks
  · rw [hproc]; exact OrchestratorHub.store_report_counter tid now report.contexts s
  · rw [hproc]
  · rw [hproc]
  · intro ctx hmem hid hcontent
    have := OrchestratorHub.store_report_inserts tid now report.contexts s ctx hmem hid hcontent
    rw [hproc]
    exact this

/-- Witness for `c8_unregistered_task_processed`: unregistered id `"task_x"`,
one fresh non-empty context, which lands in the store and the returned list. -/
theorem c8_unregistered_task_processed_witness :
    ((OrchestratorHub.process_subagent_result hub0 "task_x"
        ⟨[⟨"a", "v"⟩], "c", none⟩ "t0").2).tasks = hub0.tasks
    ∧ "a" ∈ (OrchestratorHub.process_subagent_result hub0 "task_x"
        ⟨[⟨"a", "v"⟩], "c", none⟩ "t0").1.context_ids_stored := by
  have h := c8_unregistered_task_processed hub0 "task_x" "t0" ⟨[⟨"a", "v"⟩], "c", none⟩ rfl
  refine ⟨h.1, ?_⟩
  exact (h.2.2.2.2 ⟨"a", "v"⟩ (by decide) (by decide) (by decide)).2 rfl

/-- **C9**: `process_subagent_result` silently drops every report context item
whose id or content is empty: pre-filtering those items out of the report
changes neither the returned result nor the resulting hub state (so such an
item is never inserted and no error is surfaced), and every id in the returned
`context_ids_stored` stems from an item with non-empty id and content. -/
theorem c9_empty_context_items_dropped
    (s : HubState) (tid now : String) (report : SubagentReport) :
    OrchestratorHub.process_subagent_result s tid
        { report with
            contexts := report.contexts.filter fun c => c.id != "" && c.content != "" } now
      = OrchestratorHub.process_subagent_result s tid report now
    ∧ ∀ i ∈ (OrchestratorHub.process_subagent_result s tid report now).1.context_ids_stored,
        ∃ ctx, ctx ∈ report.contexts ∧ ctx.id = i ∧ ctx.id ≠ "" ∧ ctx.content ≠ "" := by
  constructor
  · unfold OrchestratorHub.process_subagent_result
    simp only [OrchestratorHub.store_report_filter tid now report.contexts s]
  · intro i hi
    apply OrchestratorHub.store_report_ids_from tid now report.contexts s i
    revert hi
    unfold OrchestratorHub.process_subagent_result
    cases hl : alookup ((OrchestratorHub.store_report_contexts
        s tid report.contexts now).2).tasks tid with
    | none => simp [hl]
    | some task => simp [hl]

/-- Witness for `c9_empty_context_items_dropped`: a report mixing an
empty-content item, an empty-id item and a proper one; filtering the empties
changes nothing, and the only stored id `"a"` stems from the proper item. -/
theorem c9_empty_context_items_dropped_witness :
    OrchestratorHub.process_subagent_result hub0 "task_y"
        ⟨[⟨"a", "v"⟩], "c", none⟩ "t0"
      = OrchestratorHub.process_subagent_result hub0 "task_y"
        ⟨[⟨"x", ""⟩, ⟨"", "w"⟩, ⟨"a", "v"⟩], "c", none⟩ "t0"
    ∧ ∃ ctx, ctx ∈ [(⟨"x", ""⟩ : ContextItem), ⟨"", "w"⟩, ⟨"a", "v"⟩]
        ∧ ctx.id = "a" ∧ ctx.id ≠ "" ∧ ctx.content ≠ "" := by
  have h := c9_empty_context_items_dropped hub0 "task_y" "t0"
    ⟨[⟨"x", ""⟩, ⟨"", "w"⟩, ⟨"a", "v"⟩], "c", none⟩
  constructor
  · have h1 := h.1
    rw [show ([(⟨"x", ""⟩ : ContextItem), ⟨"", "w"⟩, ⟨"a", "v"⟩].filter
          fun c => c.id != "" && c.content != "") = [⟨"a", "v"⟩] by decide] at h1
    exact h1
  · exact h.2 "a" (by decide)

/-! ## C2: the task lifecycle over hub operation traces -/

namespace OrchestratorHub

theorem store_report_stored_isSome (tid now : String) (ctxs : List ContextItem)
    (s : HubState) (i : String) (hi : i ∈ (store_report_contexts s tid ctxs now).1) :
    (alookup ((store_report_contexts s tid ctxs now).2).context_store i).isSome := by
  obtain ⟨ctx, hmem, hideq, hid, hcontent⟩ := store_report_ids_from tid now ctxs s i hi
  rw [← hideq]
  exact (store_report_inserts tid now ctxs s ctx hmem hid hcontent).1

theorem add_context_mono (s : HubState) (k x rb : String) (tid : Option String)
    (now : String) (i : String) (h : (alookup s.context_store i).isSome) :
    (alookup ((add_context s k x rb tid now).2).context_store i).isSome := by
  obtain ⟨c, hc⟩ := Option.isSome_iff_exists.mp h
  have := add_context_preserves s k x rb tid now i c hc
  simp [this]

end OrchestratorHub

/-- A task with this id is registered and completed. -/
def completedIn (s : HubState) (id : String) : Prop :=
  ∃ t, alookup s.tasks id = some t ∧ t.status = TaskStatus.completed

/-- The inductive invariant of reachable hub states: completed tasks carry a
set `completed_at` and a result whose stored context ids are store keys, and
every task key was generated by the counter. -/
def HubInv (s : HubState) : Prop :=
  (∀ id t, alookup s.tasks id = some t →
    t.status = TaskStatus.completed →
      t.completed_at.isSome ∧ ∃ r, t.result = some r ∧
        ∀ cid ∈ r.context_ids_stored, (alookup s.context_store cid).isSome)
  ∧ (∀ id, (alookup s.tasks id).isSome →
      ∃ n, 1 ≤ n ∧ n ≤ s.task_counter ∧ id = taskIdOf n)

theorem hubInv_hub0 : HubInv hub0 := by
  constructor
  · intro id t h; cases h
  · intro id h; exact Bool.noConfusion h

/-- The id generated by `create_task` is fresh. -/
theorem create_fresh {s : HubState} (inv : HubInv s) :
    alookup s.tasks (taskIdOf (s.task_counter + 1)) = none := by
  cases hl : alookup s.tasks (taskIdOf (s.task_counter + 1)) with
  | none => rfl
  | some t =>
      obtain ⟨n, h1, h2, h3⟩ := inv.2 (taskIdOf (s.task_counter + 1)) (by simp [hl])
      have := taskIdOf_injective h3.symm
      omega

/-- The context store only ever grows. -/
theorem applyOp_store_mono (s : HubState) (op : HubOp) (i : String)
    (h : (alookup s.context_store i).isSome) :
    (alookup ((applyOp s op).context_store) i).isSome := by
  obtain ⟨c, hc⟩ := Option.isSome_iff_exists.mp h
  have := applyOp_store_preserves s op i c hc
  simp [this]

theorem hubInv_applyOp {s : HubState} (inv : HubInv s) (op : HubOp) :
    HubInv (applyOp s op) := by
  cases op with
  | create a ti d r b now =>
      have hfresh := create_fresh inv
      constructor
      · intro id t hl hst
        by_cases hid : taskIdOf (s.task_counter + 1) = id
        · rw [show applyOp s (.create a ti d r b now)
              = ⟨aset s.tasks (taskIdOf (s.task_counter + 1))
                  ⟨taskIdOf (s.task_counter + 1), a, ti, d, r, b, .created, now, none, none⟩,
                 s.context_store, s.task_counter + 1⟩ from rfl] at hl
          rw [← hid, alookup_aset_self] at hl
          cases hl
          cases hst
        · rw [show applyOp s (.create a ti d r b now)
              = ⟨aset s.tasks (taskIdOf (s.task_counter + 1))
                  ⟨taskIdOf (s.task_counter + 1), a, ti, d, r, b, .created, now, none, none⟩,
                 s.context_store, s.task_counter + 1⟩ from rfl] at hl
          rw [alookup_aset_ne _ _ _ _ hid] at hl
          exact inv.1 id t hl hst
      · intro id hl
        by_cases hid : taskIdOf (s.task_counter + 1) = id
        · exact ⟨s.task_counter + 1, by omega, le_refl _, hid.symm⟩
        · rw [show applyOp s (.create a ti d r b now)
              = ⟨aset s.tasks (taskIdOf (s.task_counter + 1))
                  ⟨taskIdOf (s.task_counter + 1), a, ti, d, r, b, .created, now, none, none⟩,
                 s.context_store, s.task_counter + 1⟩ from rfl] at hl ⊢
          rw [alookup_aset_ne _ _ _ _ hid] at hl
          obtain ⟨n, h1, h2, h3⟩ := inv.2 id hl
          refine ⟨n, h1, ?_, h3⟩
          show n ≤ s.task_counter + 1
          omega
  | addCtx k x rb tid now =>
      have htasks : (applyOp s (.addCtx k x rb tid now)).tasks = s.tasks := by
        show ((OrchestratorHub.add_context s k x rb tid now).2).tasks = s.tasks
        unfold OrchestratorHub.add_context
        cases hk : alookup s.context_store k with
        | some v => simp [hk]
        | none => simp [hk]
      have hcounter : (applyOp s (.addCtx k x rb tid now)).task_counter = s.task_counter := by
        show ((OrchestratorHub.add_context s k x rb tid now).2).task_counter = s.task_counter
        unfold OrchestratorHub.add_context
        cases hk : alookup s.context_store k with
        | some v => simp [hk]
        | none => simp [hk]
      constructor
      · intro id t hl hst
        rw [htasks] at hl
        obtain ⟨h1, r, h2, h3⟩ := inv.1 id t hl hst
        exact ⟨h1, r, h2, fun cid hcid =>
          OrchestratorHub.add_context_mono s k x rb tid now cid (h3 cid hcid)⟩
      · intro id hl
        rw [htasks] at hl
        rw [hcounter]
        exact inv.2 id hl
  | processResult tid report now =>
      have hs₁tasks := OrchestratorHub.store_report_tasks tid now report.contexts s
      have hs₁counter := OrchestratorHub.store_report_counter tid now report.contexts s
      cases hl₀ : alookup s.tasks tid with
      | none =>
          have hresult : applyOp s (.processResult tid report now)
              = (OrchestratorHub.store_report_contexts s tid report.contexts now).2 := by
            show ((OrchestratorHub.process_subagent_result s tid report now).2) = _
            unfold OrchestratorHub.process_subagent_result
            simp [hs₁tasks, hl₀]
          rw [hresult]
          constructor
          · intro id t hl hst
            rw [hs₁tasks] at hl
            obtain ⟨h1, r, h2, h3⟩ := inv.1 id t hl hst
            refine ⟨h1, r, h2, fun cid hcid => ?_⟩
            obtain ⟨c, hc⟩ := Option.isSome_iff_exists.mp (h3 cid hcid)
            have := OrchestratorHub.store_report_preserves tid now report.contexts s cid c hc
            simp [this]
          · intro id hl
            rw [hs₁tasks] at hl
            rw [hs₁counter]
            exact inv.2 id hl
      | some task =>
          -- the task exists: result recorded, status completed, completed_at set
          have hl₁ : alookup ((OrchestratorHub.store_report_contexts
              s tid report.contexts now).2).tasks tid = some task := by
            rw [hs₁tasks]; exact hl₀
          have hresult : applyOp s (.processResult tid report now)
              = { (OrchestratorHub.store_report_contexts s tid report.contexts now).2 with
                  tasks := aset
                    (aset ((OrchestratorHub.store_report_contexts
                        s tid report.contexts now).2).tasks tid
                      { task with
                          result := some ⟨tid,
                            (OrchestratorHub.store_report_contexts
                              s tid report.contexts now).1, report.comments⟩ })
                    tid
                    { task with
                        result := some ⟨tid,
                          (OrchestratorHub.store_report_contexts
                            s tid report.contexts now).1, report.comments⟩
                        status := TaskStatus.completed
                        completed_at := some now } } := by
            show ((OrchestratorHub.process_subagent_result s tid report now).2) = _
            unfold OrchestratorHub.process_subagent_result
            simp only [hl₁]
            unfold OrchestratorHub.update_task_status
            rw [alookup_aset_self]
            rfl
          rw [hresult]
          constructor
          · intro id t hl hst
            by_cases hid : tid = id
            · rw [← hid, alookup_aset_self] at hl
              cases hl
              refine ⟨by simp, _, rfl, fun cid hcid => ?_⟩
              simp only []
              exact OrchestratorHub.store_report_stored_isSome tid now report.contexts s cid hcid
            · rw [alookup_aset_ne _ _ _ _ hid, alookup_aset_ne _ _ _ _ hid, hs₁tasks] at hl
              obtain ⟨h1, r, h2, h3⟩ := inv.1 id t hl hst
              refine ⟨h1, r, h2, fun cid hcid => ?_⟩
              obtain ⟨c, hc⟩ := Option.isSome_iff_exists.mp (h3 cid hcid)
              have := OrchestratorHub.store_report_preserves tid now report.contexts s cid c hc
              simp [this]
          · intro id hl
            simp only [hs₁counter]
            by_cases hid : tid = id
            · rw [← hid]
              rw [← hid] at hl
              have : (alookup s.tasks tid).isSome := by simp [hl₀]
              exact inv.2 tid this
            · rw [alookup_aset_ne _ _ _ _ hid, alookup_aset_ne _ _ _ _ hid, hs₁tasks] at hl
              exact inv.2 id hl

theorem hubInv_runOps {s : HubState} (inv : HubInv s) (ops : List HubOp) :
    HubInv (runOps s ops) := by
  induction ops generalizing s with
  | nil => exact inv
  | cons op rest ih => exact ih (hubInv_applyOp inv op)

theorem completedIn_congr {s s' : HubState} (h : s'.tasks = s.tasks) (id : String) :
    completedIn s' id ↔ completedIn s id := by
  unfold completedIn
  rw [h]

theorem addCtx_tasks (s : HubState) (k x rb : String) (tid : Option String) (now : String) :
    ((OrchestratorHub.add_context s k x rb tid now).2).tasks = s.tasks := by
  unfold OrchestratorHub.add_context
  cases hk : alookup s.context_store k with
  | some v => simp [hk]
  | none => simp [hk]

/-- When the task exists, `process_subagent_result` rebinds it to the
completed, result-carrying version. -/
theorem process_lookup_self (s : HubState) (tid now : String) (report : SubagentReport)
    (task : Task) (hl₀ : alookup s.tasks tid = some task) :
    alookup ((OrchestratorHub.process_subagent_result s tid report now).2).tasks tid
      = some { task with
          result := some ⟨tid,
            (OrchestratorHub.store_report_contexts s tid report.contexts now).1,
            report.comments⟩
          status := TaskStatus.completed
          completed_at := some now } := by
  have hl₁ : alookup ((OrchestratorHub.store_report_contexts
      s tid report.contexts now).2).tasks tid = some task := by
    rw [OrchestratorHub.store_report_tasks]; exact hl₀
  unfold OrchestratorHub.process_subagent_result
  simp only [hl₁]
  unfold OrchestratorHub.update_task_status
  rw [alookup_aset_self]
  simp only []
  rw [alookup_aset_self]
  simp

theorem process_lookup_other (s : HubState) (tid now : String) (report : SubagentReport)
    (id : String) (hid : tid ≠ id) :
    alookup ((OrchestratorHub.process_subagent_result s tid report now).2).tasks id
      = alookup s.tasks id := by
  have hs₁ := OrchestratorHub.store_report_tasks tid now report.contexts s
  unfold OrchestratorHub.process_subagent_result
  cases hl₁ : alookup ((OrchestratorHub.store_report_contexts
      s tid report.contexts now).2).tasks tid with
  | none => simp only [hl₁]; rw [hs₁]
  | some task =>
      simp only [hl₁]
      unfold OrchestratorHub.update_task_status
      rw [alookup_aset_self]
      simp only []
      rw [alookup_aset_ne _ _ _ _ hid, alookup_aset_ne _ _ _ _ hid, hs₁]

/-- One-step characterization of completion: an operation completes a task iff
it is a `process_subagent_result` for that id at a state where the task is
registered. -/
theorem completedIn_applyOp {s : HubState} (inv : HubInv s) (op : HubOp) (id : String) :
    completedIn (applyOp s op) id ↔
      (completedIn s id ∨
        match op with
        | .processResult tid _ _ => tid = id ∧ (alookup s.tasks id).isSome
        | _ => False) := by
  cases op with
  | create a ti d r b now =>
      have hfresh := create_fresh inv
      have htasks : (applyOp s (.create a ti d r b now)).tasks
          = aset s.tasks (taskIdOf (s.task_counter + 1))
              ⟨taskIdOf (s.task_counter + 1), a, ti, d, r, b, .created, now, none, none⟩ := rfl
      simp only [or_false]
      constructor
      · rintro ⟨t, hl, hst⟩
        rw [htasks] at hl
        by_cases hid : taskIdOf (s.task_counter + 1) = id
        · rw [← hid, alookup_aset_self] at hl
          cases hl
          cases hst
        · rw [alookup_aset_ne _ _ _ _ hid] at hl
          exact ⟨t, hl, hst⟩
      · rintro ⟨t, hl, hst⟩
        by_cases hid : taskIdOf (s.task_counter + 1) = id
        · rw [← hid, hfresh] at hl
          cases hl
        · refine ⟨t, ?_, hst⟩
          show alookup (applyOp s (.create a ti d r b now)).tasks id = some t
          rw [htasks, alookup_aset_ne _ _ _ _ hid]
          exact hl
  | addCtx k x rb tid now =>
      simp only [or_false]
      exact completedIn_congr (addCtx_tasks s k x rb tid now) id
  | processResult tid report now =>
      by_cases hid : tid = id
      · subst hid
        cases hl₀ : alookup s.tasks tid with
        | none =>
            have hs₁ := OrchestratorHub.store_report_tasks tid now report.contexts s
            have hl₁ : alookup ((OrchestratorHub.store_report_contexts
                s tid report.contexts now).2).tasks tid = none := by
              rw [hs₁]; exact hl₀
            have htasks : ((OrchestratorHub.process_subagent_result
                s tid report now).2).tasks = s.tasks := by
              unfold OrchestratorHub.process_subagent_result
              simp only [hl₁]
              exact hs₁
            rw [show applyOp s (.processResult tid report now)
                = (OrchestratorHub.process_subagent_result s tid report now).2 from rfl]
            rw [completedIn_congr htasks]
            simp [hl₀]
        | some task =>
            have hself := process_lookup_self s tid now report task hl₀
            constructor
            · intro _
              exact Or.inr ⟨rfl, by simp [hl₀]⟩
            · intro _
              exact ⟨_, hself, rfl⟩
      · have hother := process_lookup_other s tid now report id hid
        constructor
        · rintro ⟨t, hl, hst⟩
          rw [show (applyOp s (.processResult tid report now)).tasks
              = ((OrchestratorHub.process_subagent_result s tid report now).2).tasks
              from rfl, hother] at hl
          exact Or.inl ⟨t, hl, hst⟩
        · rintro (⟨t, hl, hst⟩ | ⟨heq, _⟩)
          · exact ⟨t, by
              rw [show (applyOp s (.processResult tid report now)).tasks
                = ((OrchestratorHub.process_subagent_result s tid report now).2).tasks
                from rfl, hother]
              exact hl, hst⟩
          · exact absurd heq hid

/-- Completion along a trace: a task is completed after running `ops` iff it
was already completed or some `process_subagent_result` hit its id while it was
registered. -/
theorem runOps_completedIn (ops : List HubOp) :
    ∀ s : HubState, HubInv s → ∀ id : String,
      completedIn (runOps s ops) id ↔
        (completedIn s id ∨ invokedWhileRegistered s ops id = true) := by
  induction ops with
  | nil =>
      intro s inv id
      simp [runOps, invokedWhileRegistered]
  | cons op rest ih =>
      intro s inv id
      rw [show runOps s (op :: rest) = runOps (applyOp s op) rest from rfl]
      rw [ih (applyOp s op) (hubInv_applyOp inv op) id]
      rw [completedIn_applyOp inv op id]
      cases op with
      | create a ti d r b now =>
          simp [invokedWhileRegistered, or_assoc]
      | addCtx k x rb tid now =>
          simp [invokedWhileRegistered, or_assoc]
      | processResult tid report now =>
          simp only [invokedWhileRegistered, Bool.or_eq_true, Bool.and_eq_true,
            decide_eq_true_eq, or_assoc]

/-- **C2** (counterexample to the claim as stated): hub methods are callable in
any order, and `process_subagent_result` accepts unregistered ids (C8).  In the
trace that first processes a result for `"task_001"` and only then creates the
task (whose generated id is exactly `task_001`), the final hub has `task_001`
registered with status `created`, yet `processSubagentResult` *has* been
invoked for its id — falsifying the "completed iff invoked for its id"
biconditional read over arbitrary hub operation sequences. -/
theorem c2_counterexample :
    invokedFor
        [.processResult "task_001" ⟨[], "c", none⟩ "t1",
         .create "coder" "T" "D" [] [] "t2"] "task_001" = true
    ∧ (alookup (runOps hub0
        [.processResult "task_001" ⟨[], "c", none⟩ "t1",
         .create "coder" "T" "D" [] [] "t2"]).tasks "task_001").map Task.status
      = some TaskStatus.created := by
  constructor
  · decide
  · decide

/-- **C2** (amended): starting from a fresh hub and running any sequence of the
externally-invoked hub operations (`create_task`, `add_context`,
`process_subagent_result`; `update_task_status` has no other caller in the
program), a registered task has status `completed` **iff**
`process_subagent_result` was invoked for its id at a moment the task was
registered; in that case `completed_at` is set and the recorded result's
`context_ids_stored` are all keys of the final context store. -/
theorem c2_task_lifecycle (ops : List HubOp) (id : String) (t : Task)
    (hl : alookup (runOps hub0 ops).tasks id = some t) :
    (t.status = TaskStatus.completed ↔ invokedWhileRegistered hub0 ops id = true)
    ∧ (t.status = TaskStatus.completed →
        t.completed_at.isSome ∧ ∃ r, t.result = some r ∧
          ∀ cid ∈ r.context_ids_stored,
            (alookup (runOps hub0 ops).context_store cid).isSome) := by
  have hinv := hubInv_runOps hubInv_hub0 ops
  have hchar := runOps_completedIn ops hub0 hubInv_hub0 id
  have hnc : ¬ completedIn hub0 id := by
    rintro ⟨t', hl', _⟩
    cases hl'
  constructor
  · constructor
    · intro hst
      have : completedIn (runOps hub0 ops) id := ⟨t, hl, hst⟩
      rcases hchar.mp this with hc | hiwr
      · exact absurd hc hnc
      · exact hiwr
    · intro hiwr
      obtain ⟨t', hl', hst'⟩ := hchar.mpr (Or.inr hiwr)
      rw [hl] at hl'
      cases hl'
      exact hst'
  · intro hst
    exact hinv.1 id t hl hst

/-- Witness for `c2_task_lifecycle`: create `task_001`, then process a report
for it; the task is completed and its stored context id `"a"` is a store key. -/
theorem c2_task_lifecycle_witness :
    invokedWhileRegistered hub0
        [.create "coder" "T" "D" [] [] "t1",
         .processResult "task_001" ⟨[⟨"a", "v"⟩], "done", none⟩ "t2"] "task_001" = true
    ∧ (alookup (runOps hub0
        [.create "coder" "T" "D" [] [] "t1",
         .processResult "task_001" ⟨[⟨"a", "v"⟩], "done", none⟩ "t2"]).context_store
          "a").isSome := by
  have h := c2_task_lifecycle
    [.create "coder" "T" "D" [] [] "t1",
     .processResult "task_001" ⟨[⟨"a", "v"⟩], "done", none⟩ "t2"] "task_001"
    ⟨"task_001", "coder", "T", "D", [], [], .completed, "t1", some "t2",
      some ⟨"task_001", ["a"], "done"⟩⟩ (by decide)
  refine ⟨h.1.mp rfl, ?_⟩
  obtain ⟨_, r, hr, hsub⟩ := h.2 rfl
  cases hr
  exact hsub "a" (by decide)

/-! ## C3: subagent termination -/

namespace Subagent

theorem check_for_report_none (messages : List Msg) (l : List Action)
    (h : ∀ a ∈ l, a.isReport = false) :
    check_for_report messages l = .ok none := by
  induction l with
  | nil => rfl
  | cons a rest ih =>
      have ha := h a (List.mem_cons_self a rest)
      have hrest : ∀ x ∈ rest, x.isReport = false :=
        fun x hx => h x (List.mem_cons_of_mem _ hx)
      cases a
      case report c cm => simp [Action.isReport] at ha
      all_goals exact ih hrest

/-- Each loop iteration makes exactly one LLM call. -/
theorem runLoop_calls (llm : Nat → List Msg → Except String String)
    (executeTurn : String → ExecutionResult) (countIn countOut : List Msg → Nat) :
    ∀ (n turn_num : Nat) (msgs : List Msg) (calls : Nat),
      (match runLoop llm executeTurn countIn countOut n turn_num msgs calls with
       | .reported _ c => c
       | .exhausted _ c => c) ≤ calls + n := by
  intro n
  induction n with
  | zero => intro turn_num msgs calls; simp [runLoop]
  | succ n ih =>
      intro turn_num msgs calls
      rw [runLoop]
      cases hllm : llm calls msgs with
      | error e =>
          simp only []
          refine Nat.le_trans (ih (turn_num + 1) _ (calls + 1)) ?_
          omega
      | ok resp =>
          simp only []
          cases hchk : check_for_report
              (msgs ++ [⟨"assistant", resp⟩]
                ++ [⟨"user", String.intercalate "\n" (executeTurn resp).env_responses⟩])
              (executeTurn resp).actions_executed with
          | error e =>
              simp only [hchk]
              refine Nat.le_trans (ih (turn_num + 1) _ (calls + 1)) ?_
              omega
          | ok o =>
              cases o with
              | none =>
                  simp only [hchk]
                  refine Nat.le_trans (ih (turn_num + 1) _ (calls + 1)) ?_
                  omega
              | some report =>
                  simp only [hchk]
                  show calls + 1 ≤ calls + (n + 1)
                  omega

theorem forcePhase_calls (llm : Nat → List Msg → Except String String)
    (executeTurn : String → ExecutionResult) (countIn countOut : List Msg → Nat)
    (max_turns : Nat) (msgs : List Msg) (calls : Nat) :
    (forcePhase llm executeTurn countIn countOut max_turns msgs calls).2 = calls + 1 := by
  rw [forcePhase]
  cases hllm : llm calls (force_messages msgs) with
  | error e => rfl
  | ok resp =>
      simp only []
      cases hchk : check_for_report (force_messages msgs ++ [⟨"assistant", resp⟩])
          (executeTurn resp).actions_executed with
      | error e => simp only [hchk]
      | ok o => cases o <;> simp only [hchk]

/-- When no reply ever yields a `Report` action, the loop exhausts its budget
with exactly one call per turn. -/
theorem runLoop_no_report (llm : Nat → List Msg → Except String String)
    (executeTurn : String → ExecutionResult) (countIn countOut : List Msg → Nat)
    (hnr : ∀ resp, ∀ a ∈ (executeTurn resp).actions_executed, a.isReport = false) :
    ∀ (n turn_num : Nat) (msgs : List Msg) (calls : Nat),
      ∃ msgs', runLoop llm executeTurn countIn countOut n turn_num msgs calls
        = .exhausted msgs' (calls + n) := by
  intro n
  induction n with
  | zero => intro turn_num msgs calls; exact ⟨msgs, by simp [runLoop]⟩
  | succ n ih =>
      intro turn_num msgs calls
      rw [runLoop]
      cases hllm : llm calls msgs with
      | error e =>
          simp only []
          obtain ⟨m', hm⟩ := ih (turn_num + 1)
            (msgs ++ [⟨"user", "Error occurred: " ++ e ++ ". Please continue."⟩]) (calls + 1)
          rw [show calls + (n + 1) = (calls + 1) + n by omega]
          exact ⟨m', hm⟩
      | ok resp =>
          have hchk := check_for_report_none
            (msgs ++ [⟨"assistant", resp⟩]
              ++ [⟨"user", String.intercalate "\n" (executeTurn resp).env_responses⟩])
            (executeTurn resp).actions_executed (hnr resp)
          obtain ⟨m', hm⟩ := ih (turn_num + 1)
            (msgs ++ [⟨"assistant", resp⟩]
              ++ [⟨"user", String.intercalate "\n" (executeTurn resp).env_responses⟩])
            (calls + 1)
          simp only []
          rw [hchk]
          rw [show calls + (n + 1) = (calls + 1) + n by omega]
          exact ⟨m', hm⟩

end Subagent

/-- **C3**: for every behaviour of the LLM oracle (including raising) and of
the turn executor, `Subagent.run` returns a `SubagentReport` after at most
`max_turns + 1` LLM calls (one per loop turn plus at most one forced call);
and when no reply ever yields a `Report` action it returns the synthesized
fallback report: no contexts, the explanatory comments naming `max_turns`, and
the trajectory attached. -/
theorem c3_subagent_termination
    (llm : Nat → List Msg → Except String String)
    (executeTurn : String → ExecutionResult)
    (countIn countOut : List Msg → Nat)
    (system_message : String) (task : SubagentTask) (max_turns : Nat) :
    (Subagent.run llm executeTurn countIn countOut system_message task max_turns).2
      ≤ max_turns + 1
    ∧ ((∀ resp, ∀ a ∈ (executeTurn resp).actions_executed, a.isReport = false) →
        (Subagent.run llm executeTurn countIn countOut system_message task max_turns).1.contexts
          = []
        ∧ (Subagent.run llm executeTurn countIn countOut system_message
            task max_turns).1.comments
          = "Task incomplete - reached maximum turns (" ++ toString max_turns
            ++ ") without proper completion. Agent failed to provide report when requested."
        ∧ (((Subagent.run llm executeTurn countIn countOut system_message
            task max_turns).1.meta.bind SubagentMeta.trajectory).isSome)) := by
  constructor
  · unfold Subagent.run
    simp only []
    cases hrun : Subagent.runLoop llm executeTurn countIn countOut max_turns 0
        [⟨"system", system_message⟩, ⟨"user", Subagent.build_task_prompt task⟩] 0 with
    | reported r c =>
        have := Subagent.runLoop_calls llm executeTurn countIn countOut max_turns 0
          [⟨"system", system_message⟩, ⟨"user", Subagent.build_task_prompt task⟩] 0
        rw [hrun] at this
        simp only [] at this ⊢
        omega
    | exhausted msgs c =>
        have hc := Subagent.runLoop_calls llm executeTurn countIn countOut max_turns 0
          [⟨"system", system_message⟩, ⟨"user", Subagent.build_task_prompt task⟩] 0
        rw [hrun] at hc
        simp only [] at hc ⊢
        rw [Subagent.forcePhase_calls]
        omega
  · intro hnr
    obtain ⟨msgs', hm⟩ := Subagent.runLoop_no_report llm executeTurn countIn countOut hnr
      max_turns 0 [⟨"system", system_message⟩, ⟨"user", Subagent.build_task_prompt task⟩] 0
    unfold Subagent.run
    simp only []
    rw [hm]
    simp only []
    rw [Subagent.forcePhase]
    cases hllm : llm (0 + max_turns) (Subagent.force_messages msgs') with
    | error e => exact ⟨rfl, rfl, rfl⟩
    | ok resp =>
        simp only []
        have hchk := Subagent.check_for_report_none
          (Subagent.force_messages msgs' ++ [⟨"assistant", resp⟩])
          (executeTurn resp).actions_executed (hnr resp)
        rw [hchk]
        exact ⟨rfl, rfl, rfl⟩

/-- Witness for `c3_subagent_termination`: an LLM that always answers plain
text and an executor that never produces actions; with `max_turns = 2` the
run makes at most 3 calls and returns the fallback report. -/
theorem c3_subagent_termination_witness :
    (Subagent.run (fun _ _ => .ok "no actions")
        (fun _ => ⟨[], ["No actions were attempted."], true, none, true, none⟩)
        (fun _ => 0) (fun _ => 0) "sys" ⟨"explorer", "T", "D", [], []⟩ 2).2 ≤ 3
    ∧ (Subagent.run (fun _ _ => .ok "no actions")
        (fun _ => ⟨[], ["No actions were attempted."], true, none, true, none⟩)
        (fun _ => 0) (fun _ => 0) "sys" ⟨"explorer", "T", "D", [], []⟩ 2).1.contexts = [] := by
  have h := c3_subagent_termination (fun _ _ => .ok "no actions")
    (fun _ => ⟨[], ["No actions were attempted."], true, none, true, none⟩)
    (fun _ => 0) (fun _ => 0) "sys" ⟨"explorer", "T", "D", [], []⟩ 2
  exact ⟨h.1, (h.2 (by intro resp a ha; cases ha)).1⟩

/-! ## C4: env responses vs executed actions -/

namespace TurnExecutor

/-- When no handler raises, the action loop records exactly one env response
per executed action (in order, state threaded left to right), and the executed
actions are a prefix of the parsed ones (the loop stops after a `Finish`). -/
theorem execActions_aligned {σ : Type}
    (handle : σ → Action → Except String (String × Bool) × σ)
    (hok : ∀ (s : σ) (a : Action), ∃ out, (handle s a).1 = .ok out) :
    ∀ (actions : List Action) (st : σ),
      (execActions handle st actions).env_responses.length
        = (execActions handle st actions).actions_executed.length
      ∧ List.IsPrefix (execActions handle st actions).actions_executed actions
      ∧ ∀ (i : Nat) (a : Action),
          (execActions handle st actions).actions_executed[i]? = some a →
          ∃ out isErr,
            (handle (execActions handle st
                ((execActions handle st actions).actions_executed.take i)).state a).1
              = .ok (out, isErr)
            ∧ (execActions handle st actions).env_responses[i]? = some out := by
  intro actions
  induction actions with
  | nil =>
      intro st
      refine ⟨rfl, List.nil_prefix, ?_⟩
      intro i a h
      simp [execActions] at h
  | cons a rest ih =>
      intro st
      obtain ⟨⟨out, isErr⟩, hout⟩ := hok st a
      by_cases hfin : a.isFinish = true
      · have hacts : (execActions handle st (a :: rest)).actions_executed = [a] := by
          simp [execActions, hout, hfin]
        have henv : (execActions handle st (a :: rest)).env_responses = [out] := by
          simp [execActions, hout, hfin]
        refine ⟨by rw [hacts, henv]; rfl, by rw [hacts]; exact ⟨rest, rfl⟩, ?_⟩
        intro i x hx
        rw [hacts] at hx ⊢
        rw [henv]
        cases i with
        | zero =>
            simp at hx
            subst hx
            exact ⟨out, isErr, by simpa [execActions] using hout, by simp⟩
        | succ j => simp at hx
      · have hacts : (execActions handle st (a :: rest)).actions_executed
            = a :: (execActions handle (handle st a).2 rest).actions_executed := by
          simp [execActions, hout, hfin]
        have henv : (execActions handle st (a :: rest)).env_responses
            = out :: (execActions handle (handle st a).2 rest).env_responses := by
          simp [execActions, hout, hfin]
        have ihr := ih (handle st a).2
        refine ⟨by rw [hacts, henv]; simp [ihr.1], ?_, ?_⟩
        · rw [hacts]
          obtain ⟨t, ht⟩ := ihr.2.1
          exact ⟨t, by rw [List.cons_append, ht]⟩
        · intro i x hx
          rw [hacts] at hx ⊢
          rw [henv]
          cases i with
          | zero =>
              simp at hx
              subst hx
              exact ⟨out, isErr, by simpa [execActions] using hout, by simp⟩
          | succ j =>
              simp only [List.getElem?_cons_succ] at hx ⊢
              obtain ⟨out2, isErr2, hh, he⟩ := ihr.2.2 j x hx
              refine ⟨out2, isErr2, ?_, he⟩
              rw [show ((a :: (execActions handle
                    (handle st a).2 rest).actions_executed).take (j + 1))
                  = a :: ((execActions handle
                    (handle st a).2 rest).actions_executed.take j) from rfl]
              rw [show (execActions handle st
                    (a :: ((execActions handle
                      (handle st a).2 rest).actions_executed.take j))).state
                  = (execActions handle (handle st a).2
                      ((execActions handle
                        (handle st a).2 rest).actions_executed.take j)).state by
                simp [execActions, hout, hfin]]
              exact hh

end TurnExecutor

/-- **C4** (amended): provided the reply parses with no errors and no handler
raises, `TurnExecutor.execute` produces `env_responses` indexed 1:1 with
`actions_executed`: equal lengths, the i-th env response is the handler's
rendered output for the i-th executed action (under the handler state current
at that point), and the executed actions are a prefix of the parsed actions in
reply order (execution stops after a `Finish` action).  Parse errors prepend
`[PARSE ERROR]` responses, a handler exception appends an `[ERROR]` response
with no recorded action, and an unparseable reply yields the single response
`"No actions were attempted."` — those are the cases the original claim misses. -/
theorem c4_env_responses_aligned
    (yamlLoad : String → Except String Yaml) {σ : Type}
    (handle : σ → Action → Except String (String × Bool) × σ)
    (drain : σ → List (String × TrajEntry) × σ) (st : σ) (reply : String)
    (hfound : (SimpleActionParser.parse_response yamlLoad reply).2.2 = true)
    (herr : (SimpleActionParser.parse_response yamlLoad reply).2.1 = [])
    (hok : ∀ (s : σ) (a : Action), ∃ out, (handle s a).1 = .ok out) :
    ((TurnExecutor.execute (SimpleActionParser.parse_response yamlLoad)
        handle drain st reply).1).env_responses.length
      = ((TurnExecutor.execute (SimpleActionParser.parse_response yamlLoad)
        handle drain st reply).1).actions_executed.length
    ∧ List.IsPrefix
        ((TurnExecutor.execute (SimpleActionParser.parse_response yamlLoad)
          handle drain st reply).1).actions_executed
        (SimpleActionParser.parse_response yamlLoad reply).1
    ∧ ∀ (i : Nat) (a : Action),
        ((TurnExecutor.execute (SimpleActionParser.parse_response yamlLoad)
          handle drain st reply).1).actions_executed[i]? = some a →
        ∃ out isErr,
          (handle (TurnExecutor.execActions handle st
              (((TurnExecutor.execute (SimpleActionParser.parse_response yamlLoad)
                handle drain st reply).1).actions_executed.take i)).state a).1
            = .ok (out, isErr)
          ∧ ((TurnExecutor.execute (SimpleActionParser.parse_response yamlLoad)
              handle drain st reply).1).env_responses[i]? = some out := by
  have hal := TurnExecutor.execActions_aligned handle hok
    (SimpleActionParser.parse_response yamlLoad reply).1 st
  have hres : (TurnExecutor.execute (SimpleActionParser.parse_response yamlLoad)
        handle drain st reply).1
      = ⟨(TurnExecutor.execActions handle st
            (SimpleActionParser.parse_response yamlLoad reply).1).actions_executed,
         (TurnExecutor.execActions handle st
            (SimpleActionParser.parse_response yamlLoad reply).1).env_responses,
         (TurnExecutor.execActions handle st
            (SimpleActionParser.parse_response yamlLoad reply).1).has_error,
         (TurnExecutor.execActions handle st
            (SimpleActionParser.parse_response yamlLoad reply).1).finish_message,
         (TurnExecutor.execActions handle st
            (SimpleActionParser.parse_response yamlLoad reply).1).done,
         if (drain (TurnExecutor.execActions handle st
              (SimpleActionParser.parse_response yamlLoad reply).1).state).1 = []
         then none
         else some (drain (TurnExecutor.execActions handle st
              (SimpleActionParser.parse_response yamlLoad reply).1).state).1⟩ := by
    unfold TurnExecutor.execute
    simp [hfound, herr]
  rw [hres]
  exact ⟨hal.1.symm ▸ hal.1, hal.2.1, fun i a h => hal.2.2 i a h⟩

/-- **C4** (counterexample to the claim as stated): the reply mixes an unknown
tag `<bogus>` with a valid `<finish>` action.  The parser reports one error and
one action; `TurnExecutor.execute` (with the real parser and action handler —
only the internal `finish` handler is exercised, so the external-I/O oracle is
irrelevant) returns **two** env responses (`[PARSE ERROR] …` first) but only
**one** executed action, so `envResponses` is not indexed 1:1 with
`actionsExecuted`. -/
theorem c4_counterexample :
    ((TurnExecutor.execute (SimpleActionParser.parse_response yamlLoadModel)
        (ActionHandler.handle_action (fun s _ => (.error "external I/O", s)) "t0")
        ActionHandler.get_and_clear_subagent_trajectories
        (⟨todo0, [], hub0, []⟩ : HandlerState)
        "<bogus>\nhi\n</bogus>\n<finish>\nmessage: ok\n</finish>").1).env_responses
      = ["[PARSE ERROR] Unknown action type: bogus",
         "<finish_output>\nTask marked as complete: ok\n</finish_output>"]
    ∧ ((TurnExecutor.execute (SimpleActionParser.parse_response yamlLoadModel)
        (ActionHandler.handle_action (fun s _ => (.error "external I/O", s)) "t0")
        ActionHandler.get_and_clear_subagent_trajectories
        (⟨todo0, [], hub0, []⟩ : HandlerState)
        "<bogus>\nhi\n</bogus>\n<finish>\nmessage: ok\n</finish>").1).actions_executed
      = [.finish "ok"] := by
  constructor
  · rfl
  · rfl

/-- Witness for `c4_env_responses_aligned`: a clean reply with one bash action
(handled by a stub external oracle, as the bash handler calls the shared
executor) — one action, one response. -/
theorem c4_env_responses_aligned_witness :
    ((TurnExecutor.execute (SimpleActionParser.parse_response yamlLoadModel)
        (fun (s : Unit) (_ : Action) => (.ok ("out", false), s))
        (fun s => ([], s)) () "<finish>\nmessage: ok\n</finish>").1).env_responses.length
      = ((TurnExecutor.execute (SimpleActionParser.parse_response yamlLoadModel)
        (fun (s : Unit) (_ : Action) => (.ok ("out", false), s))
        (fun s => ([], s)) () "<finish>\nmessage: ok\n</finish>").1).actions_executed.length :=
  (c4_env_responses_aligned yamlLoadModel
    (fun (s : Unit) (_ : Action) => (.ok ("out", false), s))
    (fun s => ([], s)) () "<finish>\nmessage: ok\n</finish>"
    (by decide) (by decide)
    (fun s a => ⟨("out", false), rfl⟩)).1

/-! ## C6: batch todo operations -/

/-- Stored todo contents are genuine strings (Python `None` contents make
`truncate_content` raise; they can only enter via an `add` op whose `content`
field was absent — see `TodoOperation.model_validate`). -/
def todosWF (t : TodoState) : Prop := ∀ p ∈ t.todos, p.2.content ≠ none

theorem mem_iset {α : Type} (k : Int) (v : α) :
    ∀ (l : List (Int × α)), ∀ p ∈ iset l k v, p.2 = v ∨ p ∈ l := by
  intro l
  induction l with
  | nil => intro p hp; simp [iset] at hp; simp [hp]
  | cons hd tl ih =>
      intro p hp
      by_cases hk : hd.1 = k
      · rw [show iset (hd :: tl) k v = (hd.1, v) :: tl by
          simp [iset, hk]] at hp
        rcases List.mem_cons.mp hp with h | h
        · simp [h]
        · exact Or.inr (List.mem_cons_of_mem _ h)
      · rw [show iset (hd :: tl) k v = hd :: iset tl k v by
          cases hd
          simp only [iset]
          rw [if_neg hk]] at hp
        rcases List.mem_cons.mp hp with h | h
        · exact Or.inr (by simp [h])
        · rcases ih p h with h' | h'
          · exact Or.inl h'
          · exact Or.inr (List.mem_cons_of_mem _ h')

theorem ilookup_mem {α : Type} (k : Int) (v : α) :
    ∀ (l : List (Int × α)), ilookup l k = some v → (k, v) ∈ l := by
  intro l
  induction l with
  | nil => intro h; cases h
  | cons hd tl ih =>
      intro h
      by_cases hk : hd.1 = k
      · rw [show ilookup (hd :: tl) k = some hd.2 by
          cases hd; simp only [ilookup]; rw [if_pos hk]] at h
        cases h
        cases hd
        cases hk
        exact List.mem_cons_self _ _
      · rw [show ilookup (hd :: tl) k = ilookup tl k by
          cases hd; simp only [ilookup]; rw [if_neg hk]] at h
        exact List.mem_cons_of_mem _ (ih h)

theorem mem_iremove {α : Type} (k : Int) :
    ∀ (l : List (Int × α)), ∀ p ∈ iremove l k, p ∈ l := by
  intro l
  induction l with
  | nil => intro p hp; simp [iremove] at hp
  | cons hd tl ih =>
      intro p hp
      by_cases hk : hd.1 = k
      · rw [show iremove (hd :: tl) k = tl by
          cases hd; simp only [iremove]; rw [if_pos hk]] at hp
        exact List.mem_cons_of_mem _ hp
      · rw [show iremove (hd :: tl) k = hd :: iremove tl k by
          cases hd; simp only [iremove]; rw [if_neg hk]] at hp
        rcases List.mem_cons.mp hp with h | h
        · simp [h]
        · exact List.mem_cons_of_mem _ (ih p h)

namespace ActionHandler

/-- One crash-free batch-todo operation: its result lines, error flag and
successor state, with the loop over `op :: rest` decomposing through them. -/
theorem run_batch_ops_step (t : TodoState) (op : TodoOperation)
    (hwf : todosWF t) (hadd : op.action = "add" → op.content ≠ none) :
    ∃ (lines : List String) (err : Bool) (t₁ : TodoState),
      todosWF t₁
      ∧ run_batch_ops t [op] = (.ok (lines, err), t₁)
      ∧ ∀ rest : List TodoOperation,
          run_batch_ops t (op :: rest)
            = ((run_batch_ops t₁ rest).1.map fun p => (lines ++ p.1, err || p.2),
               (run_batch_ops t₁ rest).2) := by
  by_cases ha : op.action = "add"
  · cases hc : op.content with
    | none => exact absurd hc (hadd ha)
    | some c =>
        refine ⟨["Added todo [" ++ toString t.next_id ++ "]: " ++ truncate_content c],
          false, (TodoManager.add_task t op.content).2, ?_, ?_, ?_⟩
        · intro p hp
          replace hp : p ∈ iset t.todos t.next_id ⟨op.content, "pending"⟩ := hp
          rcases mem_iset t.next_id ⟨op.content, "pending"⟩ t.todos p hp with h | h
          · rw [h, hc]; simp
          · exact hwf p h
        · simp [run_batch_ops, ha, hc, TodoManager.add_task, Except.map]
        · intro rest
          simp only [run_batch_ops, ha, if_pos, hc]
          rfl
  · by_cases hcm : op.action = "complete"
    · cases hf : op.task_id.bind (TodoManager.get_task t) with
      | none =>
          refine ⟨["[ERROR] Task " ++ showOptInt op.task_id ++ " not found"], true, t,
            hwf, ?_, ?_⟩
          · simp [run_batch_ops, ha, hcm, hf, Except.map]
          · intro rest
            simp only [run_batch_ops, ha, hcm, hf]
            rfl
      | some task =>
          by_cases hdone : task.status = "completed"
          · refine ⟨["Task " ++ showOptInt op.task_id ++ " is already completed"],
              false, t, hwf, ?_, ?_⟩
            · simp [run_batch_ops, ha, hcm, hf, hdone, Except.map]
            · intro rest
              simp only [run_batch_ops, ha, hcm, hf, hdone]
              rfl
          · have htask_mem : (op.task_id.getD 0, task) ∈ t.todos := by
              cases hti : op.task_id with
              | none => rw [hti] at hf; cases hf
              | some i =>
                  rw [hti] at hf
                  simp only [Option.some_bind] at hf
                  exact ilookup_mem i task t.todos hf
            have hcontent : task.content ≠ none := hwf _ htask_mem
            cases hc : task.content with
            | none => exact absurd hc hcontent
            | some c =>
                refine ⟨["Completed task [" ++ showOptInt op.task_id ++ "]: "
                    ++ truncate_content c], false,
                  (TodoManager.complete_task t (op.task_id.getD 0)).2, ?_, ?_, ?_⟩
                · intro p hp
                  unfold TodoManager.complete_task at hp
                  cases hl : ilookup t.todos (op.task_id.getD 0) with
                  | none => rw [hl] at hp; exact hwf p hp
                  | some item =>
                      rw [hl] at hp
                      replace hp : p ∈ iset t.todos (op.task_id.getD 0)
                          { item with status := "completed" } := hp
                      rcases mem_iset (op.task_id.getD 0)
                          { item with status := "completed" } t.todos p hp with h | h
                      · rw [h]
                        have : item.content ≠ none :=
                          hwf _ (ilookup_mem _ _ _ hl)
                        simpa using this
                      · exact hwf p h
                · simp [run_batch_ops, ha, hcm, hf, hdone, hc, Except.map]
                · intro rest
                  simp only [run_batch_ops, ha, hcm, hf, hdone, hc]
                  rfl
    · by_cases hdl : op.action = "delete"
      · cases hf : op.task_id.bind (TodoManager.get_task t) with
        | none =>
            refine ⟨["[ERROR] Task " ++ showOptInt op.task_id ++ " not found"], true, t,
              hwf, ?_, ?_⟩
            · simp [run_batch_ops, ha, hcm, hdl, hf, Except.map]
            · intro rest
              simp only [run_batch_ops, ha, hcm, hdl, hf]
              rfl
        | some task =>
            have htask_mem : (op.task_id.getD 0, task) ∈ t.todos := by
              cases hti : op.task_id with
              | none => rw [hti] at hf; cases hf
              | some i =>
                  rw [hti] at hf
                  simp only [Option.some_bind] at hf
                  exact ilookup_mem i task t.todos hf
            cases hc : task.content with
            | none => exact absurd hc (hwf _ htask_mem)
            | some c =>
                refine ⟨["Deleted task [" ++ showOptInt op.task_id ++ "]: "
                    ++ truncate_content c], false,
                  (TodoManager.delete_task t (op.task_id.getD 0)).2, ?_, ?_, ?_⟩
                · intro p hp
                  unfold TodoManager.delete_task at hp
                  cases hl : ilookup t.todos (op.task_id.getD 0) with
                  | none => rw [hl] at hp; exact hwf p hp
                  | some item =>
                      rw [hl] at hp
                      replace hp : p ∈ iremove t.todos (op.task_id.getD 0) := hp
                      exact hwf p (mem_iremove (op.task_id.getD 0) t.todos p hp)
                · simp [run_batch_ops, ha, hcm, hdl, hf, hc, Except.map]
                · intro rest
                  simp only [run_batch_ops, ha, hcm, hdl, hf, hc]
                  rfl
      · refine ⟨[], false, t, hwf, ?_, ?_⟩
        · simp [run_batch_ops, ha, hcm, hdl, Except.map]
        · intro rest
          rw [show run_batch_ops t (op :: rest) = run_batch_ops t rest by
            simp only [run_batch_ops, ha, hcm, hdl]
            rfl]
          rcases hrb : run_batch_ops t rest with ⟨a, b⟩
          cases a <;> rfl

/-- Crash-free batches run to completion: result lines in operation order,
accumulated error flag, final state well formed. -/
theorem run_batch_ops_total :
    ∀ (ops : List TodoOperation) (t : TodoState), todosWF t →
      (∀ op ∈ ops, op.action = "add" → op.content ≠ none) →
      ∃ r e t', run_batch_ops t ops = (.ok (r, e), t') ∧ todosWF t' := by
  intro ops
  induction ops with
  | nil => intro t hwf _; exact ⟨[], false, t, rfl, hwf⟩
  | cons op rest ih =>
      intro t hwf hadd
      obtain ⟨lines, err, t₁, hwf₁, _, hcont⟩ :=
        run_batch_ops_step t op hwf (hadd op (List.mem_cons_self _ _))
      obtain ⟨r, e, t', hr, hwf'⟩ := ih t₁ hwf₁
        (fun x hx => hadd x (List.mem_cons_of_mem _ hx))
      exact ⟨lines ++ r, err || e, t', by rw [hcont rest, hr]; rfl, hwf'⟩

/-- Concatenated batches decompose: the second batch runs from the first's
final state regardless of errors in the first. -/
theorem run_batch_ops_append :
    ∀ (ops₁ ops₂ : List TodoOperation) (t : TodoState), todosWF t →
      (∀ op ∈ ops₁ ++ ops₂, op.action = "add" → op.content ≠ none) →
      ∃ r₁ e₁ t₁ r₂ e₂ t₂,
        run_batch_ops t ops₁ = (.ok (r₁, e₁), t₁)
        ∧ run_batch_ops t₁ ops₂ = (.ok (r₂, e₂), t₂)
        ∧ run_batch_ops t (ops₁ ++ ops₂) = (.ok (r₁ ++ r₂, e₁ || e₂), t₂) := by
  intro ops₁
  induction ops₁ with
  | nil =>
      intro ops₂ t hwf hadd
      obtain ⟨r, e, t', hr, _⟩ := run_batch_ops_total ops₂ t hwf
        (fun x hx => hadd x (by simpa using hx))
      exact ⟨[], false, t, r, e, t', rfl, hr, by simpa using hr⟩
  | cons op ops₁ ih =>
      intro ops₂ t hwf hadd
      obtain ⟨lines, err, tS, hwfS, _, hcont⟩ :=
        run_batch_ops_step t op hwf (hadd op (List.mem_cons_self _ _))
      obtain ⟨r₁, e₁, t₁, r₂, e₂, t₂, h₁, h₂, h₁₂⟩ := ih ops₂ tS hwfS
        (fun x hx => hadd x (List.mem_cons_of_mem _ hx))
      refine ⟨lines ++ r₁, err || e₁, t₁, r₂, e₂, t₂, ?_, h₂, ?_⟩
      · rw [hcont ops₁, h₁]
        rfl
      · rw [show (op :: ops₁) ++ ops₂ = op :: (ops₁ ++ ops₂) from rfl,
          hcont (ops₁ ++ ops₂), h₁₂]
        simp [Except.map, List.append_assoc, Bool.or_assoc]

end ActionHandler

/-- **C6** (amended): `_handle_batch_todo` executes the operations in list
order; an error on one operation (e.g. a missing task id) does not stop the
remaining operations — concatenated batches decompose with the second half
running from the first half's state and the result lines concatenated in
order; and the full todo list is appended after all operation results exactly
when the batch's `view_all` flag is set — a `view_all` operation inside the
list is a no-op and does not by itself append the list.  (Hypotheses: stored
and added contents are present, ruling out the `TypeError` crash on a Python
`None` content.) -/
theorem c6_batch_todo_order (st : HandlerState) (ops₁ ops₂ : List TodoOperation)
    (flag : Bool) (hwf : todosWF st.todo)
    (hadd : ∀ op ∈ ops₁ ++ ops₂, op.action = "add" → op.content ≠ none) :
    ∃ r₁ e₁ t₁ r₂ e₂ t₂,
      ActionHandler.run_batch_ops st.todo ops₁ = (.ok (r₁, e₁), t₁)
      ∧ ActionHandler.run_batch_ops t₁ ops₂ = (.ok (r₂, e₂), t₂)
      ∧ ActionHandler.handle_batch_todo st (ops₁ ++ ops₂) flag
        = (.ok (format_tool_output "todo"
            (if flag then
              String.intercalate "\n" (r₁ ++ r₂) ++ "\n\n" ++ TodoManager.view_all t₂
             else String.intercalate "\n" (r₁ ++ r₂)), e₁ || e₂),
           { st with todo := t₂ }) := by
  obtain ⟨r₁, e₁, t₁, r₂, e₂, t₂, h₁, h₂, h₁₂⟩ :=
    ActionHandler.run_batch_ops_append ops₁ ops₂ st.todo hwf hadd
  refine ⟨r₁, e₁, t₁, r₂, e₂, t₂, h₁, h₂, ?_⟩
  unfold ActionHandler.handle_batch_todo
  rw [h₁₂]

/-- **C6** (counterexample to the claim as stated): with one pending todo, a
batch whose operations list contains a `view_all` op but whose `view_all` flag
is false produces an empty response body — the full todo list (which renders
as `"Todo List:\n[ ] [1] A"`) is *not* appended, although the claim says a
`view_all` operation anywhere in the list suffices.  With the flag set, the
same state does render the list. -/
theorem c6_counterexample :
    (ActionHandler.handle_batch_todo
        ⟨(TodoManager.add_task todo0 (some "A")).2, [], hub0, []⟩
        [⟨"view_all", none, none⟩] false).1
      = .ok ("<todo_output>\n\n</todo_output>", false)
    ∧ TodoManager.view_all (TodoManager.add_task todo0 (some "A")).2
      = "Todo List:\n[ ] [1] A"
    ∧ (ActionHandler.handle_batch_todo
        ⟨(TodoManager.add_task todo0 (some "A")).2, [], hub0, []⟩
        [⟨"view_all", none, none⟩] true).1
      = .ok ("<todo_output>\n\n\nTodo List:\n[ ] [1] A\n</todo_output>", false) :=
  ⟨rfl, rfl, rfl⟩

/-- Witness for `c6_batch_todo_order`: `[add "A", complete 1] ++ [delete 2,
view_all]` — the missing id 2 errors without stopping, and with the flag set
the final list is appended. -/
theorem c6_batch_todo_order_witness :
    ∃ r₁ e₁ t₁ r₂ e₂ t₂,
      ActionHandler.run_batch_ops todo0
          [⟨"add", some "A", none⟩, ⟨"complete", none, some 1⟩] = (.ok (r₁, e₁), t₁)
      ∧ ActionHandler.run_batch_ops t₁
          [⟨"delete", none, some 2⟩, ⟨"view_all", none, none⟩] = (.ok (r₂, e₂), t₂)
      ∧ ActionHandler.handle_batch_todo (⟨todo0, [], hub0, []⟩ : HandlerState)
          ([⟨"add", some "A", none⟩, ⟨"complete", none, some 1⟩]
            ++ [⟨"delete", none, some 2⟩, ⟨"view_all", none, none⟩]) true
        = (.ok (format_tool_output "todo"
            (String.intercalate "\n" (r₁ ++ r₂) ++ "\n\n" ++ TodoManager.view_all t₂),
            e₁ || e₂),
           { (⟨todo0, [], hub0, []⟩ : HandlerState) with todo := t₂ }) := by
  obtain ⟨r₁, e₁, t₁, r₂, e₂, t₂, h₁, h₂, h₃⟩ :=
    c6_batch_todo_order (⟨todo0, [], hub0, []⟩ : HandlerState)
      [⟨"add", some "A", none⟩, ⟨"complete", none, some 1⟩]
      [⟨"delete", none, some 2⟩, ⟨"view_all", none, none⟩] true
      (by intro p hp; cases hp)
      (by decide)
  exact ⟨r₁, e₁, t₁, r₂, e₂, t₂, h₁, h₂, by simpa using h₃⟩

/-! ## C5: the `agent_type` literal -/

/-- **C5** (code bug): `TaskCreateAction` declares
`agent_type: Literal["exploratory", "coder"]`, so a `task_create` payload with
`agent_type: explorer` — the value the spec, the `Task` dataclass
(`Literal['explorer', 'coder']`) and `Subagent._load_system_message` all use —
is rejected with a validation error, while the accepted value `"exploratory"`
is unusable downstream: `Subagent._load_system_message` raises
`ValueError("Unknown agent type: exploratory")` for it, so every auto-launched
"exploratory" task errors.  The theorem exhibits all four facts, the last via
the full parser on a concrete `<task_create>` tag. -/
theorem c5_agent_type_mismatch :
    TaskCreateAction.model_validate
        (.map [("agent_type", .str "explorer"), ("title", .str "T"),
               ("description", .str "D")])
      = .error "agent_type: input should be exploratory or coder"
    ∧ TaskCreateAction.model_validate
        (.map [("agent_type", .str "exploratory"), ("title", .str "T"),
               ("description", .str "D")])
      = .ok (.taskCreate "exploratory" "T" "D" [] [] false)
    ∧ Subagent.load_system_message "EXPLORER_MSG" "CODER_MSG" "exploratory"
      = .error "Unknown agent type: exploratory"
    ∧ Subagent.load_system_message "EXPLORER_MSG" "CODER_MSG" "explorer"
      = .ok "EXPLORER_MSG"
    ∧ SimpleActionParser.parse_response yamlLoadModel
        "<task_create>\nagent_type: explorer\ntitle: T\ndescription: D\n</task_create>"
      = ([],
         ["[task_create] Validation error: agent_type: input should be exploratory or coder"],
         true) :=
  ⟨rfl, rfl, rfl, rfl, rfl⟩

/-! ## LLM client lemmas: retry loop and caching frame property -/

theorem retryLoop_spec (completion : Nat → Except LlmError String) (uniform : Nat → ℚ) :
    ∀ (fuel attempt : Nat) (acc : List ℚ) (res : Except LlmError String)
      (sl : List ℚ) (calls : Nat),
      retryLoop completion uniform 10 fuel attempt acc = (res, sl, calls) →
      attempt + fuel = 10 → attempt ≤ 9 → acc.length = attempt →
      (∀ i, i < attempt → acc.reverse[i]? = some (min ((2:ℚ) ^ i + uniform i) 60)) →
      (∀ j, j < attempt → ∃ x, completion j = .error x ∧ isOverloadedError x = true) →
      (attempt ≤ calls ∧ calls ≤ 10) ∧
      sl.length = calls - 1 ∧
      (∀ i, i < sl.length → sl[i]? = some (min ((2:ℚ) ^ i + uniform i) 60)) ∧
      (∀ n e, n < 10 → completion n = .error e → isOverloadedError e = false →
        (∀ j, j < n → ∃ x, completion j = .error x ∧ isOverloadedError x = true) →
        res = .error e ∧ calls = n + 1) ∧
      ((∀ j, j < 10 → ∃ x, completion j = .error x ∧ isOverloadedError x = true) →
        ∃ e, completion 9 = .error e ∧ res = .error e ∧ calls = 10) := by
  intro fuel
  induction fuel with
  | zero => intro attempt acc res sl calls hr hft ha9; omega
  | succ fuel ih =>
    intro attempt acc res sl calls hr hft ha9 hlen hacc hov
    rw [retryLoop] at hr
    cases hc : completion attempt with
    | ok s =>
        rw [hc] at hr
        injection hr with h1 h23
        injection h23 with h2 h3
        subst h1; subst h2; subst h3
        refine ⟨⟨by omega, by omega⟩, by simp [hlen], ?_, ?_, ?_⟩
        · intro i hi
          simp only [List.length_reverse, hlen] at hi
          exact hacc i hi
        · intro n e hn hce hno hall
          rcases Nat.lt_trichotomy n attempt with hlt | heq | hgt
          · obtain ⟨x, hx, hxo⟩ := hov n hlt
            rw [hce] at hx
            injection hx with hx'
            rw [← hx'] at hxo
            rw [hxo] at hno
            cases hno
          · subst heq
            rw [hc] at hce
            cases hce
          · obtain ⟨x, hx, hxo⟩ := hall attempt hgt
            rw [hc] at hx
            cases hx
        · intro hall
          obtain ⟨x, hx, hxo⟩ := hall attempt (by omega)
          rw [hc] at hx
          cases hx
    | error e =>
        rw [hc] at hr
        simp only [] at hr
        by_cases hoe : isOverloadedError e = true
        · rw [if_pos hoe] at hr
          by_cases hlt : attempt < 10 - 1
          · rw [if_pos hlt] at hr
            have hstep := ih (attempt + 1)
              (min ((2:ℚ) ^ attempt + uniform attempt) 60 :: acc) res sl calls hr
              (by omega) (by omega) (by simp [hlen])
              (by
                intro i hi
                rcases Nat.lt_or_ge i attempt with hia | hia
                · rw [List.reverse_cons, List.getElem?_append_left]
                  · exact hacc i hia
                  · simp [hlen, hia]
                · have : i = attempt := by omega
                  subst this
                  rw [List.reverse_cons]
                  have hl : acc.reverse.length = i := by simp [hlen]
                  rw [← hl, List.getElem?_concat_length])
              (by
                intro j hj
                rcases Nat.lt_or_ge j attempt with hja | hja
                · exact hov j hja
                · have : j = attempt := by omega
                  subst this
                  exact ⟨e, hc, hoe⟩)
            obtain ⟨⟨hc1, hc2⟩, rest⟩ := hstep
            exact ⟨⟨by omega, hc2⟩, rest⟩
          · rw [if_neg hlt] at hr
            injection hr with h1 h23
            injection h23 with h2 h3
            subst h1; subst h2; subst h3
            have ha : attempt = 9 := by omega
            subst ha
            refine ⟨⟨by omega, by omega⟩, by simp [hlen], ?_, ?_, ?_⟩
            · intro i hi
              simp only [List.length_reverse, hlen] at hi
              exact hacc i hi
            · intro n e' hn hce hno hall
              rcases Nat.lt_trichotomy n 9 with hlt9 | heq | hgt
              · obtain ⟨x, hx, hxo⟩ := hov n hlt9
                rw [hce] at hx
                injection hx with hx'
                rw [← hx'] at hxo
                rw [hxo] at hno
                cases hno
              · subst heq
                rw [hc] at hce
                injection hce with hce'
                rw [← hce'] at hno
                rw [hoe] at hno
                cases hno
              · omega
            · intro hall
              exact ⟨e, hc, rfl, rfl⟩
        · rw [if_neg hoe] at hr
          injection hr with h1 h23
          injection h23 with h2 h3
          subst h1; subst h2; subst h3
          have hoe' : isOverloadedError e = false := by
            cases h : isOverloadedError e
            · rfl
            · exact absurd h hoe
          refine ⟨⟨by omega, by omega⟩, by simp [hlen], ?_, ?_, ?_⟩
          · intro i hi
            simp only [List.length_reverse, hlen] at hi
            exact hacc i hi
          · intro n e' hn hce hno hall
            rcases Nat.lt_trichotomy n attempt with hlt | heq | hgt
            · obtain ⟨x, hx, hxo⟩ := hov n hlt
              rw [hce] at hx
              injection hx with hx'
              rw [← hx'] at hxo
              rw [hxo] at hno
              cases hno
            · subst heq
              rw [hc] at hce
              injection hce with hce'
              exact ⟨by rw [hce'], rfl⟩
            · obtain ⟨x, hx, hxo⟩ := hall attempt hgt
              rw [hc] at hx
              injection hx with hx'
              rw [← hx'] at hxo
              rw [hxo] at hoe'
              cases hoe'
          · intro hall
            obtain ⟨x, hx, hxo⟩ := hall attempt (by omega)
            rw [hc] at hx
            injection hx with hx'
            rw [← hx'] at hxo
            rw [hxo] at hoe'
            cases hoe'

/-- **C7** On a provider-overload error (`InternalServerError` whose text contains
`overloaded_error`), `get_llm_response` with the default `max_retries = 10` retries
with delay `min(2 ^ attempt + jitter, 60)` seconds slept before each retry
(at most 10 completion calls in total), re-raising the overload error once
retries are exhausted; a non-overload error propagates to the caller unchanged,
without any further call or sleep. -/
theorem c7_retry_backoff (completion : Nat → Except LlmError String) (uniform : Nat → ℚ)
    (model : String) (h : List ChatMessage) (msgs : List Nat) :
    (get_llm_response completion uniform model h msgs 10).calls ≤ 10 ∧
    (get_llm_response completion uniform model h msgs 10).sleeps.length
      = (get_llm_response completion uniform model h msgs 10).calls - 1 ∧
    (∀ i, i < (get_llm_response completion uniform model h msgs 10).sleeps.length →
      (get_llm_response completion uniform model h msgs 10).sleeps[i]?
        = some (min ((2:ℚ) ^ i + uniform i) 60)) ∧
    (∀ n e, n < 10 → completion n = .error e → isOverloadedError e = false →
      (∀ j, j < n → ∃ x, completion j = .error x ∧ isOverloadedError x = true) →
      (get_llm_response completion uniform model h msgs 10).result = .error e ∧
      (get_llm_response completion uniform model h msgs 10).calls = n + 1) ∧
    ((∀ j, j < 10 → ∃ x, completion j = .error x ∧ isOverloadedError x = true) →
      ∃ e, completion 9 = .error e ∧
        (get_llm_response completion uniform model h msgs 10).result = .error e ∧
        (get_llm_response completion uniform model h msgs 10).calls = 10) := by
  have hres : (get_llm_response completion uniform model h msgs 10).result
      = (retryLoop completion uniform 10 10 0 []).1 := rfl
  have hsl : (get_llm_response completion uniform model h msgs 10).sleeps
      = (retryLoop completion uniform 10 10 0 []).2.1 := rfl
  have hca : (get_llm_response completion uniform model h msgs 10).calls
      = (retryLoop completion uniform 10 10 0 []).2.2 := rfl
  have hspec := retryLoop_spec completion uniform 10 0 []
    (retryLoop completion uniform 10 10 0 []).1
    (retryLoop completion uniform 10 10 0 []).2.1
    (retryLoop completion uniform 10 10 0 []).2.2
    rfl (by omega) (by omega) rfl
    (by intro i hi; omega)
    (by intro j hj; omega)
  rw [hres, hsl, hca]
  exact ⟨hspec.1.2, hspec.2.1, hspec.2.2.1, hspec.2.2.2.1, hspec.2.2.2.2⟩

theorem c7_retry_backoff_witness :
    (get_llm_response (fun _ => Except.error ⟨true, "overloaded_error"⟩) (fun _ => (0:ℚ))
      "anthropic/claude" [] [] 10).calls = 10 ∧
    (get_llm_response (fun _ => Except.error ⟨true, "overloaded_error"⟩) (fun _ => (0:ℚ))
      "anthropic/claude" [] [] 10).result = Except.error ⟨true, "overloaded_error"⟩ := by
  have hmain := c7_retry_backoff (fun _ => Except.error ⟨true, "overloaded_error"⟩)
    (fun _ => (0:ℚ)) "anthropic/claude" [] []
  obtain ⟨e, he, hresult, hcalls⟩ := hmain.2.2.2.2
    (fun j hj => ⟨⟨true, "overloaded_error"⟩, rfl, by decide⟩)
  injection he with he'
  subst he'
  exact ⟨hcalls, hresult⟩

theorem annotateAt_getElem?_ne (hp : List ChatMessage) (i r : Nat) (hne : r ≠ i) :
    (annotateAt hp i)[r]? = hp[r]? := by
  unfold annotateAt
  cases hg : hp.get? i with
  | none => rfl
  | some m => exact List.getElem?_set_ne (Ne.symm hne)

theorem annIfAt_getElem?_lt (base : Nat) (hp : List ChatMessage) (o : Option Nat)
    (r : Nat) (hr : r < base) : (annIfAt base hp o)[r]? = hp[r]? := by
  cases o with
  | none => rfl
  | some i => exact annotateAt_getElem?_ne hp (base + i) r (by omega)

theorem caching_fst_getElem? (h : List ChatMessage) (refs : List Nat) (model : String)
    (r : Nat) (hr : r < h.length) :
    (applyAnthropicCachingIfPossible h refs model).1[r]? = h[r]? := by
  unfold applyAnthropicCachingIfPossible
  by_cases hm : (model ≠ "" && strContainsSub model "anthropic/") = true
  · rw [hm]
    simp only [Bool.not_true, Bool.false_eq_true, if_false]
    by_cases h2 : (((refs.map fun x => (h.get? x).getD ⟨"", .other⟩).enum.filter
        fun p => p.2.role = "user").map (·.1)).length ≥ 2
    · rw [if_pos h2]
      rw [annIfAt_getElem?_lt _ _ _ _ hr, annIfAt_getElem?_lt _ _ _ _ hr,
        annIfAt_getElem?_lt _ _ _ _ hr]
      exact List.getElem?_append_left hr
    · rw [if_neg h2]
      rw [annIfAt_getElem?_lt _ _ _ _ hr, annIfAt_getElem?_lt _ _ _ _ hr]
      exact List.getElem?_append_left hr
  · simp only [Bool.not_eq_true] at hm
    rw [hm]
    rfl

theorem caching_snd_fresh (h : List ChatMessage) (refs : List Nat) (model : String)
    (hmn : model ≠ "") (hma : strContainsSub model "anthropic/" = true) :
    ∀ p ∈ (applyAnthropicCachingIfPossible h refs model).2, h.length ≤ p := by
  unfold applyAnthropicCachingIfPossible
  have hm : (model ≠ "" && strContainsSub model "anthropic/") = true := by
    simp [hmn, hma]
  rw [hm]
  simp only [Bool.not_true, Bool.false_eq_true, if_false]
  intro p hp
  simp only [List.mem_map, List.mem_range] at hp
  obtain ⟨q, hq, hpe⟩ := hp
  omega

/-- **C10** `get_llm_response` never mutates the caller's messages: every heap
slot the caller holds reads back unchanged after the call, and when the model
name contains `anthropic/` the annotated messages actually passed to completion
all live in freshly allocated slots (the deep copy). -/
theorem c10_no_message_mutation (completion : Nat → Except LlmError String)
    (uniform : Nat → ℚ) (model : String) (h : List ChatMessage) (msgs : List Nat)
    (mr : Nat) (r : Nat) (hr : r < h.length) :
    (get_llm_response completion uniform model h msgs mr).finalHeap[r]? = h[r]? ∧
    (model ≠ "" → strContainsSub model "anthropic/" = true →
      ∀ p ∈ (get_llm_response completion uniform model h msgs mr).processedRefs,
        h.length ≤ p) := by
  constructor
  · exact caching_fst_getElem? h msgs model r hr
  · intro hmn hma p hp
    exact caching_snd_fresh h msgs model hmn hma p hp

theorem c10_no_message_mutation_witness :
    0 < ([⟨"user", PyContent.str "hi"⟩] : List ChatMessage).length ∧
    (get_llm_response (fun _ => Except.ok "r") (fun _ => (0:ℚ)) "anthropic/claude-3"
      [⟨"user", PyContent.str "hi"⟩] [0] 10).finalHeap[0]?
      = some ⟨"user", PyContent.str "hi"⟩ ∧
    (get_llm_response (fun _ => Except.ok "r") (fun _ => (0:ℚ)) "anthropic/claude-3"
      [⟨"user", PyContent.str "hi"⟩] [0] 10).finalHeap[1]?
      = some ⟨"user", PyContent.list [.dict (some "text") (some "hi") true]⟩ := by
  refine ⟨by decide, ?_, by rfl⟩
  have hc := (c10_no_message_mutation (fun _ => Except.ok "r") (fun _ => (0:ℚ))
    "anthropic/claude-3" [⟨"user", PyContent.str "hi"⟩] [0] 10 0 (by decide)).1
  rw [hc]
  rfl

end EchoOrch
